import Mathlib

/-!
# Verification of the Directory Sync scripts

A shallow embedding, in Lean 4, of the core logic of the repository's
Google-Apps-Script automation jobs, together with proofs of the behavioural
properties stated in the specification.

Conventions used throughout:
* JavaScript numbers are modelled as rationals (`ℚ`); decimal rounding
  (`Number.prototype.toFixed(1)` followed by `parseFloat`) is modelled as
  exact round-half-up to one decimal.
* Remote HTTP endpoints are modelled as explicit response sequences passed
  as arguments; side effects (console/Slack logging, sleeping) are recorded
  in the result values instead of being performed.
* Fallible operations return `Except` or record an explicit error flag.
-/

namespace SyncSpec
/-! ## JavaScript string primitives

`String.prototype.toLowerCase` and `String.prototype.trim`, modelled
character-by-character (the inputs handled by these scripts are ASCII
email addresses and names). -/

/-- `s.toLowerCase()`: lower-case every character. -/
def jsToLower (s : String) : String :=
  String.mk (s.data.map Char.toLower)

/-- `s.trim()`: strip leading and trailing whitespace. -/
def jsTrim (s : String) : String :=
  String.mk
    (((s.data.dropWhile Char.isWhitespace).reverse.dropWhile
      Char.isWhitespace).reverse)

/-! ## Retrying HTTP client (`fetchWithRetries`, unnamed/part_000 and part_001)

Source:
```
function fetchWithRetries(url, options, maxRetries = 3) {
    for (let attempt = 0; attempt <= maxRetries; attempt++) {
        const response = UrlFetchApp.fetch(url, options);
        const data = JSON.parse(response.getContentText());
        if (data.ok) return response;
        else if (shouldRetry(data.error)) {
            Utilities.sleep(2 ** attempt * 1000);
        } else {
            break;
        }
    }
    return lastFailedResponse;
}
```
The parsed body of each attempt's response is modelled by `RemoteData`
(`data.ok` and `data.error`).  The remote endpoint is modelled as the
function `resp : Nat → RemoteData` giving the parsed body of the n-th
attempt.  `shouldRetry` is referenced by the source but declared nowhere in
the repository; it is modelled as an explicit predicate argument on error
codes.  `lastFailedResponse` is likewise declared and assigned nowhere in
the repository, so under JavaScript semantics evaluating the final
`return lastFailedResponse;` statement throws a `ReferenceError`; the
outcome constructor `lastFailedResponseRef` marks executions that reach
that statement. -/

/-- Parsed JSON body of one HTTP response, as inspected by
`fetchWithRetries` (`data.ok`, `data.error`). -/
structure RemoteData where
  ok : Bool
  error : String
  deriving Repr, DecidableEq

/-- How a call of `fetchWithRetries` ends: either some attempt's response
had `ok = true` and that response is returned, or control reaches the
statement `return lastFailedResponse;`, whose identifier is declared
nowhere in the repository (a `ReferenceError` under JavaScript
semantics). -/
inductive RetryOutcome where
  | success (attempt : Nat)
  | lastFailedResponseRef
  deriving Repr, DecidableEq

/-- Observable result of a `fetchWithRetries` call: how many times
`UrlFetchApp.fetch` ran, the seconds slept (in order), and the outcome. -/
structure RetryResult where
  attempts : Nat
  sleeps : List Nat
  outcome : RetryOutcome
  deriving Repr, DecidableEq

/-- The `for` loop of `fetchWithRetries`, by recursion on the number of
loop iterations still allowed (`remaining = maxRetries + 1 - attempt`). -/
def fetchLoop (resp : Nat → RemoteData) (shouldRetry : String → Bool) :
    Nat → Nat → RetryResult
  | _, 0 => { attempts := 0, sleeps := [], outcome := .lastFailedResponseRef }
  | attempt, remaining + 1 =>
    let data := resp attempt
    if data.ok then
      { attempts := 1, sleeps := [], outcome := .success attempt }
    else if shouldRetry data.error then
      let rest := fetchLoop resp shouldRetry (attempt + 1) remaining
      { attempts := rest.attempts + 1
        sleeps := 2 ^ attempt :: rest.sleeps
        outcome := rest.outcome }
    else
      { attempts := 1, sleeps := [], outcome := .lastFailedResponseRef }

/-- `fetchWithRetries(url, options, maxRetries = 3)`: the loop runs
`attempt` from `0` to `maxRetries` inclusive. -/
def fetchWithRetries (resp : Nat → RemoteData) (shouldRetry : String → Bool)
    (maxRetries : Nat := 3) : RetryResult :=
  fetchLoop resp shouldRetry 0 (maxRetries + 1)

/-! ## Match-and-Upsert engine (`linkDatabases`, logger.js 294-355)

Source highlights:
```
const emailToPageIdMap = pagesDatabase2.reduce((map, page) => {
    const email = (page.properties["Email (Org)"]?.email || "").toLowerCase();
    if (email) {
        if (!map[email]) { map[email] = []; }
        map[email].push(page.id);
    }
    return map;
}, \x7b\x7d);

pagesDatabase1.forEach(page => {
    const email = (page.properties["Email (Org)"]?.email || "").toLowerCase();
    if (email && emailToPageIdMap[email]) {
        if (!page.properties["People Directory (Sync)"]?.relation?.length) {
            const relatedPageIds = emailToPageIdMap[email];
            const relationPayload = relatedPageIds.map(pageId => (\x7b id: pageId \x7d));
            const success = updatePageRelationWithMultiple(page.id, relationPayload, headers);
            ...
        } else { /* already linked */ }
    }
});
```
A page is modelled by the three pieces of data the function reads:
its id, its `Email (Org)` email (absent property or null email ↦ `none`),
and its `People Directory (Sync)` relation (absent ↦ `none`).
`updatePageRelationWithMultiple` PATCHes the page, setting the relation
property to exactly the payload; `applyWrites` below applies that effect
to the in-memory source collection. -/

/-- The fields of a Notion page read by `linkDatabases`. -/
structure LinkPage where
  id : String
  emailOrg : Option String
  syncRelation : Option (List String)
  deriving Repr, DecidableEq

/-- `(page.properties["Email (Org)"]?.email || "").toLowerCase()`. -/
def joinKey (p : LinkPage) : String :=
  jsToLower (p.emailOrg.getD "")

/-- `!page.properties["People Directory (Sync)"]?.relation?.length`:
true when the relation property is absent or its list is empty. -/
def relationEmpty (p : LinkPage) : Bool :=
  match p.syncRelation with
  | none => true
  | some l => l.isEmpty

/-- One `reduce` step on the email map: create the entry if absent, then
push the page id (`map[email].push(page.id)`). -/
def pushEmail (m : List (String × List String)) (email id : String) :
    List (String × List String) :=
  if (m.lookup email).isSome then
    m.map (fun kv => if kv.1 = email then (kv.1, kv.2 ++ [id]) else kv)
  else
    m ++ [(email, [id])]

/-- The `reduce` body building `emailToPageIdMap`: pages whose normalized
email is empty (falsy) are skipped. -/
def emailMapStep (m : List (String × List String)) (page : LinkPage) :
    List (String × List String) :=
  let email := joinKey page
  if email ≠ "" then pushEmail m email page.id else m

/-- `emailToPageIdMap`: the `reduce` over the target collection. -/
def buildEmailToPageIdMap (pages : List LinkPage) :
    List (String × List String) :=
  pages.foldl emailMapStep []

/-- The per-source-record body of the `forEach`: `some (pageId, ids)` when
an update (a `Link` decision) is issued for the record, `none` when the
record is a NoOp. -/
def pageDecision (m : List (String × List String)) (p : LinkPage) :
    Option (String × List String) :=
  let email := joinKey p
  if email ≠ "" then
    match m.lookup email with
    | some ids => if relationEmpty p then some (p.id, ids) else none
    | none => none
  else none

/-- `linkDatabases`, reduced to its observable write decisions: the list of
`(pageId, relationPayload)` PATCHes issued, in source order.  The early
return on an empty fetch result is kept. -/
def linkDatabases (pages1 pages2 : List LinkPage) :
    List (String × List String) :=
  if pages1.isEmpty ∨ pages2.isEmpty then []
  else pages1.filterMap (pageDecision (buildEmailToPageIdMap pages2))

/-- The full multiplicity of target identities sharing a normalized key:
ids of the target pages whose normalized email equals `k`, in order. -/
def matchingTargets (pages2 : List LinkPage) (k : String) : List String :=
  (pages2.filter (fun q => joinKey q = k)).map (·.id)

/-- Effect on one page of the PATCHes issued by a run:
`updatePageRelationWithMultiple` sets the relation property of the page to
exactly the payload of its decision, if any. -/
def applyWrite (decisions : List (String × List String)) (p : LinkPage) :
    LinkPage :=
  match decisions.lookup p.id with
  | some ids => { p with syncRelation := some ids }
  | none => p

/-- Effect on the source collection of the PATCHes issued by a run. -/
def applyWrites (pages : List LinkPage)
    (decisions : List (String × List String)) : List LinkPage :=
  pages.map (applyWrite decisions)

/-! ## Join-key normalization in `timeTrackerRecap` (timeTracker.js 37-58)

Source highlights:
```
var nameToDataMap = \x7b\x7d;
externalData.forEach(row => {
    var name = row[0] ? row[0].trim().toLowerCase() : "";
    if (name) {
        nameToDataMap[name] = { ... };
    }
});
var dataToWrite = targetNames.map(row => {
    var name = row[0] ? row[0].trim().toLowerCase() : "";
    var data = nameToDataMap[name] ||
      { errorDetection: "", lastUpdate: "", startDate: "", hoursDecimal: "" };
    return [data.errorDetection, data.lastUpdate, data.startDate,
      data.hoursDecimal];
});
```
A row is modelled as its key cell (`row[0]`, `none` for an empty/absent
cell) paired with the data the map stores for it (kept abstract, of type
`α`). -/

/-- `row[0] ? row[0].trim().toLowerCase() : ""`. -/
def ttKey (cell : Option String) : String :=
  match cell with
  | some s => if s = "" then "" else jsToLower (jsTrim s)
  | none => ""

/-- `nameToDataMap[name] = data`: overwrite the entry if present,
otherwise append it. -/
def setNameEntry {α : Type} (m : List (String × α)) (k : String) (v : α) :
    List (String × α) :=
  if (m.lookup k).isSome then
    m.map (fun kv => if kv.1 = k then (kv.1, v) else kv)
  else
    m ++ [(k, v)]

/-- `nameToDataMap`: the `forEach` over the external sheet rows, skipping
rows whose normalized name is empty (falsy). -/
def nameToDataMap {α : Type} (rows : List (Option String × α)) :
    List (String × α) :=
  rows.foldl
    (fun m r =>
      let name := ttKey r.1
      if name ≠ "" then setNameEntry m name r.2 else m)
    []

/-- `nameToDataMap[name] || defaults`: the data written for one target
row. -/
def dataForTarget {α : Type} (m : List (String × α)) (cell : Option String)
    (defaults : α) : α :=
  match m.lookup (ttKey cell) with
  | some d => d
  | none => defaults

/-! ## Paginated collection fetcher (`fetchAllPages`, api.js 44-89 and
logger.js 206-259)

Source highlights (api.js; the logger.js copy differs only in lacking the
response-code guard):
```
while (hasMore) {
    ...
    try {
        const response = UrlFetchApp.fetch(NOTION_QUERY_URL(notionDatabaseId), options);
        const data = JSON.parse(response.getContentText());
        if (response.getResponseCode() !== 200) { logError(...); break; }
        if (!data.results) { logError(...); break; }
        pages.push(...data.results);
        cursor = data.next_cursor;
        hasMore = data.has_more;
    } catch (err) { logError(...); break; }
}
return pages;
```
The remote is modelled as the list of responses it returns to the
successive query calls, in call order; each loop iteration consumes one.
`errorLogged` records whether a fetch-error log was emitted (the `break`
paths).  All failure paths `break` out of the loop and return the
accumulated records — nothing is thrown to the caller. -/

/-- One query response: HTTP status code and the parsed body fields read
by the loop (`results` is `none` when the field is absent). -/
structure QueryResponse (α : Type) where
  code : Nat
  results : Option (List α)
  has_more : Bool
  next_cursor : Option String
  deriving Repr, DecidableEq

/-- Observable result of `fetchAllPages`: the records returned, the number
of query calls made, and whether a fetch error was logged. -/
structure FetchAllResult (α : Type) where
  pages : List α
  calls : Nat
  errorLogged : Bool
  deriving Repr, DecidableEq

/-- The `while (hasMore)` loop of `fetchAllPages`, by recursion on the
sequence of remote responses (one consumed per iteration). -/
def fetchAllPages {α : Type} : List (QueryResponse α) → FetchAllResult α
  | [] => { pages := [], calls := 0, errorLogged := false }
  | r :: rest =>
    if r.code ≠ 200 then
      { pages := [], calls := 1, errorLogged := true }
    else
      match r.results with
      | none => { pages := [], calls := 1, errorLogged := true }
      | some recs =>
        if r.has_more then
          let t := fetchAllPages rest
          { pages := recs ++ t.pages, calls := t.calls + 1,
            errorLogged := t.errorLogged }
        else
          { pages := recs, calls := 1, errorLogged := false }

/-! ## Change-gated writer (`syncGoogleSheetToNotion`, notion.js 29-94)

Source highlights (per sheet row):
```
if (!hoursCurrent && !lastUpdate) { /* skip row */ return; }
const notionPageId = extractNotionPageId(notionUrl);
if (!notionPageId) { /* skip row */ return; }
const notionProperties = getNotionPageProperties(notionPageId);
const propertiesToUpdate = \x7b\x7d;
if (hoursCurrent) {
    const roundedHoursCurrent = parseFloat(hoursCurrent.toFixed(1));
    if (notionProperties['Hours (Current)']?.number !== roundedHoursCurrent) {
        propertiesToUpdate['Hours (Current)'] = { number: roundedHoursCurrent };
    }
}
if (lastUpdate) {
    const formattedLastUpdate = new Date(lastUpdate).toISOString();
    if (notionProperties['Hours (Last Update)']?.date?.start !== formattedLastUpdate) {
        propertiesToUpdate['Hours (Last Update)'] = { date: { start: formattedLastUpdate } };
    }
}
if (Object.keys(propertiesToUpdate).length > 0) { updateNotionPageProperties(...); }
else { /* "No changes detected ... Skipping update." */ }
```
Sheet numbers are modelled as rationals; an empty cell is `none`, and the
JavaScript falsiness of `0` and `""` is kept.  `toFixed(1)` followed by
`parseFloat` is modelled as exact decimal round-half-up (`roundTo1`).
Date parsing/formatting (`new Date(x).toISOString()`) is kept abstract as
the argument `toISO`. -/

/-- `parseFloat(x.toFixed(1))`: round to one decimal, half up (ECMA
`toFixed` picks the larger candidate on ties). -/
def roundTo1 (q : ℚ) : ℚ :=
  (Int.floor (q * 10 + 1 / 2) : ℚ) / 10

/-- `extractNotionPageId`: `notionUrl.match(/([0-9a-f]{32})$/)` — the last
32 characters when they are all lower-case hex digits. -/
def extractNotionPageId (url : String) : Option String :=
  let cs := url.data
  if 32 ≤ cs.length ∧
      (cs.drop (cs.length - 32)).all
        (fun c => c.isDigit || ('a' ≤ c && c ≤ 'f')) then
    some (String.mk (cs.drop (cs.length - 32)))
  else
    none

/-- The two remote page properties read by the writer:
`['Hours (Current)']?.number` and `['Hours (Last Update)']?.date?.start`
(`none` when the chain is absent or null). -/
structure NotionProps where
  hoursCurrentNumber : Option ℚ
  lastUpdateDateStart : Option String
  deriving Repr, DecidableEq

/-- A field of the outbound PATCH document. -/
inductive PatchField where
  | hoursCurrent (n : ℚ)
  | hoursLastUpdate (startIso : String)
  deriving Repr, DecidableEq

/-- How the writer handles one sheet row. -/
inductive RowOutcome where
  | skippedEmptyRow
  | skippedNoPageId
  | skippedNoChanges
  | update (patch : List PatchField)
  deriving Repr, DecidableEq

/-- JavaScript truthiness of a sheet number cell (`0` and empty are
falsy). -/
def numTruthy : Option ℚ → Bool
  | none => false
  | some q => decide (q ≠ 0)

/-- JavaScript truthiness of a sheet string cell (empty is falsy). -/
def strTruthy : Option String → Bool
  | none => false
  | some s => decide (s ≠ "")

/-- `propertiesToUpdate`: the outbound patch, containing each proposed
field only when it is truthy and differs from the current remote value. -/
def propertiesToUpdate (toISO : String → String) (hoursCurrent : Option ℚ)
    (lastUpdate : Option String) (remote : NotionProps) : List PatchField :=
  (if numTruthy hoursCurrent then
    let rounded := roundTo1 (hoursCurrent.getD 0)
    if remote.hoursCurrentNumber ≠ some rounded then
      [PatchField.hoursCurrent rounded]
    else []
  else []) ++
  (if strTruthy lastUpdate then
    let fmt := toISO (lastUpdate.getD "")
    if remote.lastUpdateDateStart ≠ some fmt then
      [PatchField.hoursLastUpdate fmt]
    else []
  else [])

/-- The per-row body of `syncGoogleSheetToNotion`. -/
def syncGoogleSheetToNotionRow (toISO : String → String) (notionUrl : String)
    (hoursCurrent : Option ℚ) (lastUpdate : Option String)
    (remote : NotionProps) : RowOutcome :=
  if numTruthy hoursCurrent = false ∧ strTruthy lastUpdate = false then
    .skippedEmptyRow
  else
    match extractNotionPageId notionUrl with
    | none => .skippedNoPageId
    | some _ =>
      let patch := propertiesToUpdate toISO hoursCurrent lastUpdate remote
      if 0 < patch.length then .update patch else .skippedNoChanges

/-! ## Slack handle generation (`generateSlackHandle`, slack.js 223-245
and 1055-1093)

Source:
```
function generateSlackHandle(name) {
    if (!name || typeof name !== 'string') {
        const defaultHandle = 'default-user-' + Date.now();
        ...
        return defaultHandle;
    }
    let handle = name.toLowerCase()
        .replace(/\s+/g, '-')                  // spaces to dashes
        .replace(/[^a-z0-9._-]/g, '')          // remove illegal characters
        .replace(/[-_.]{2,}/g, '-')            // squash multiple separators
        .replace(/^[-_.]+|[-_.]+$/g, '')       // trim leading/trailing
        .substring(0, 21);                     // truncate to Slack limit
    if (!handle) {
        const defaultHandle = 'default-user-' + Date.now();
        ...
        return defaultHandle;
    }
    return handle;
}
```
The input is `none` for a non-string argument, `some s` for a string
(the empty string is falsy and also takes the default branch);
`Date.now()` is the explicit argument `now`.  Each regex replace is
modelled as a structurally recursive character-list transformation. -/

/-- The separator class `[-_.]`. -/
def slackSeparator (c : Char) : Bool :=
  c = '-' || c = '_' || c = '.'

/-- The legal-character class `[a-z0-9._-]`. -/
def slackAllowed (c : Char) : Bool :=
  ('a' ≤ c && c ≤ 'z') || ('0' ≤ c && c ≤ '9') || slackSeparator c

/-- `.replace(/\s+/g, '-')`: each maximal whitespace run becomes a single
dash (`inRun` records whether the previous character was whitespace). -/
def replaceWhitespaceRuns (inRun : Bool) : List Char → List Char
  | [] => []
  | c :: cs =>
    if c.isWhitespace then
      (if inRun then [] else ['-']) ++ replaceWhitespaceRuns true cs
    else
      c :: replaceWhitespaceRuns false cs

/-- `.replace(/[-_.]{2,}/g, '-')`: each separator run of length at least
two becomes a single dash; an isolated separator is kept verbatim.  The
recursion is driven by a character-count fuel so it stays structural. -/
def squashSeparatorRuns : Nat → List Char → List Char
  | 0, _ => []
  | _ + 1, [] => []
  | fuel + 1, c :: cs =>
    if slackSeparator c then
      match cs with
      | [] => [c]
      | d :: ds =>
        if slackSeparator d then
          '-' :: squashSeparatorRuns fuel (ds.dropWhile slackSeparator)
        else
          c :: squashSeparatorRuns fuel cs
    else
      c :: squashSeparatorRuns fuel cs

/-- `.replace(/^[-_.]+|[-_.]+$/g, '')`: drop leading and trailing
separators. -/
def trimSeparators (l : List Char) : List Char :=
  ((l.dropWhile slackSeparator).reverse.dropWhile slackSeparator).reverse

/-- The cleaning pipeline of `generateSlackHandle`, before the final
`substring(0, 21)`. -/
def cleanedHandle (s : String) : String :=
  let step1 := (jsToLower s).data
  let step2 := replaceWhitespaceRuns false step1
  let step3 := step2.filter slackAllowed
  let step4 := squashSeparatorRuns (step3.length + 1) step3
  String.mk (trimSeparators step4)

/-- The cleaned handle truncated to 21 characters
(`.substring(0, 21)`). -/
def truncatedHandle (s : String) : String :=
  String.mk ((cleanedHandle s).data.take 21)

/-- `generateSlackHandle`: the default branch is taken for a non-string
or falsy input and again when cleaning empties the name. -/
def generateSlackHandle (name : Option String) (now : Nat) : String :=
  match name with
  | none => "default-user-" ++ toString now
  | some s =>
    if s = "" then "default-user-" ++ toString now
    else
      let handle := truncatedHandle s
      if handle = "" then "default-user-" ++ toString now
      else handle

/-! ## Slack user-group membership (`addUsersToUsergroup`, slack.js
474-514 and 983-1019)

Source:
```
const existingUserIds = getUserGroupMembers(userGroupId, token);
const newUsers = userIds.filter(id => !existingUserIds.includes(id));
if (newUsers.length === 0) {
    Logger.log('All users already in the group. No update needed.');
    return true;
}
const payload = {
    usergroup: userGroupId,
    users: existingUserIds.concat(newUsers).join(',')
};
const response = fetchWithRetry(url, options);
const result = JSON.parse(response.getContentText());
if (!result.ok) { ...; return false; }
return true;
```
The current member list (as returned by `getUserGroupMembers`) and the
requested ids are explicit arguments; the remote update call's parsed
`ok` field is the argument `remoteOk`. -/

/-- Whether `usergroups.users.update` is called and, if so, with which
member list. -/
inductive UsergroupAction where
  | noUpdate
  | update (submitted : List String)
  deriving Repr, DecidableEq

/-- The membership decision of `addUsersToUsergroup`. -/
def addUsersToUsergroupAction (existingUserIds userIds : List String) :
    UsergroupAction :=
  let newUsers := userIds.filter (fun id => !existingUserIds.contains id)
  if newUsers.isEmpty then .noUpdate
  else .update (existingUserIds ++ newUsers)

/-- The boolean result of `addUsersToUsergroup` (`remoteOk` is the
update call's parsed `ok` field; unused when no call is made). -/
def addUsersToUsergroup (existingUserIds userIds : List String)
    (remoteOk : Bool) : Bool :=
  match addUsersToUsergroupAction existingUserIds userIds with
  | .noUpdate => true
  | .update _ => remoteOk

/-! ## Property projection (`getPropertyData`, notion.js 210-275, and
`extractPropertyValue`, team.js 93-152)

To make "never throws" a real statement, the projectors are embedded over
a small JavaScript value universe: member access on `undefined`/`null`
throws a `TypeError` (`Except.error`), access of a missing field yields
`undefined`, property access on other primitives yields `undefined`, and
`.map(...)` is only a function on arrays.  `length > 0` tests are
modelled directly as non-emptiness.  Date formatting and the nested
related-page-title fetch are kept abstract in `ProjectionEnv`. -/

/-- A JavaScript value as handled by the projectors. -/
inductive JVal where
  | undef
  | null
  | bool (b : Bool)
  | num (q : ℚ)
  | str (s : String)
  | arr (xs : List JVal)
  | obj (fields : List (String × JVal))

/-- JavaScript truthiness. -/
def truthy : JVal → Bool
  | .undef => false
  | .null => false
  | .bool b => b
  | .num q => decide (q ≠ 0)
  | .str s => decide (s ≠ "")
  | .arr _ => true
  | .obj _ => true

/-- `undefined` and `null` are the only values whose members cannot be
accessed. -/
def notNullish : JVal → Bool
  | .undef => false
  | .null => false
  | _ => true

/-- `v.f`: member access.  Throws a `TypeError` on `undefined`/`null`;
missing fields and access on other primitives yield `undefined`. -/
def getField : JVal → String → Except String JVal
  | .undef, _ => .error "TypeError"
  | .null, _ => .error "TypeError"
  | .obj fs, f => .ok ((fs.lookup f).getD .undef)
  | _, _ => .ok (.undef)

/-- `v.length > 0`: non-emptiness of arrays and strings; `undefined > 0`
(any other value) is `false`; throws on `undefined`/`null`. -/
def lengthPos : JVal → Except String Bool
  | .undef => .error "TypeError"
  | .null => .error "TypeError"
  | .arr xs => .ok !xs.isEmpty
  | .str s => .ok !s.isEmpty
  | _ => .ok false

/-- `v !== null`. -/
def strictNeqNull : JVal → Bool
  | .null => false
  | _ => true

/-- `v[i]`: array/string indexing; out of range yields `undefined`;
throws on `undefined`/`null`. -/
def jsIndex : JVal → Nat → Except String JVal
  | .undef, _ => .error "TypeError"
  | .null, _ => .error "TypeError"
  | .arr xs, i => .ok ((xs[i]?).getD .undef)
  | .str s, i =>
    .ok (match s.data[i]? with
      | some c => .str (String.mk [c])
      | none => .undef)
  | _, _ => .ok (.undef)

/-- Element-wise effectful map, propagating the first error. -/
def mapExcept (f : JVal → Except String JVal) :
    List JVal → Except String (List JVal)
  | [] => .ok []
  | x :: xs => do
    let y ← f x
    let ys ← mapExcept f xs
    pure (y :: ys)

/-- `v.map(f)`: only arrays have a callable `map`. -/
def jsMap (f : JVal → Except String JVal) : JVal →
    Except String (List JVal)
  | .arr xs => mapExcept f xs
  | _ => .error "TypeError"

/-- How `Array.prototype.join` renders one element (`undefined` and
`null` become empty). -/
def joinElem : JVal → String
  | .undef => ""
  | .null => ""
  | .str s => s
  | .bool b => if b then "true" else "false"
  | .num q => toString q
  | .arr _ => ""
  | .obj _ => "[object Object]"

/-- `xs.join(sep)`. -/
def jsJoin (xs : List JVal) (sep : String) : String :=
  String.intercalate sep (xs.map joinElem)

/-- `v.toString()`: throws on `undefined`/`null`. -/
def jsToStringMethod : JVal → Except String JVal
  | .undef => .error "TypeError"
  | .null => .error "TypeError"
  | .bool b => .ok (.str (if b then "true" else "false"))
  | .num q => .ok (.str (toString q))
  | .str s => .ok (.str s)
  | .arr xs => .ok (.str (jsJoin xs ","))
  | .obj _ => .ok (.str "[object Object]")

/-- The projectors' environment-dependent helpers: date rendering
(`convertDate`, `Intl.DateTimeFormat`, `formatDate`,
`toLocaleDateString`) and the synchronous nested fetch resolving a
related page id to its title (`fetchPageTitle`). -/
structure ProjectionEnv where
  convertDate : JVal → String
  formatCreatedTime : JVal → String
  fetchPageTitle : JVal → String
  formatDate : JVal → String
  formatCreatedLocale : JVal → String

/-- The `switch (type)` body of notion.js `getPropertyData`, reached
when `type` is a string (JavaScript `case` labels compare with strict
equality, so only string tags can match; any other `type` value falls to
the logged default branch in the wrapper below). -/
def gpdSwitch (env : ProjectionEnv) (property : JVal) (tag : String) :
    Except String JVal :=
  if tag = "title" then do
    let t ← getField property "title"
    let cond ← lengthPos t
    if cond then
      let item ← jsIndex t 0
      let pt ← getField item "plain_text"
      return pt
    else
      return .str ""
  else if tag = "number" then do
    let n ← getField property "number"
    if strictNeqNull n then return n else return .str ""
  else if tag = "select" then do
    let s ← getField property "select"
    if truthy s then
      let name ← getField s "name"
      return name
    else
      return .str ""
  else if tag = "multi_select" then do
    let m ← getField property "multi_select"
    let cond ← lengthPos m
    if cond then
      let names ← jsMap (fun item => getField item "name") m
      return .str (jsJoin names ", ")
    else
      return .str ""
  else if tag = "email" then do
    let e ← getField property "email"
    if truthy e then return e else return .str ""
  else if tag = "date" then do
    let d ← getField property "date"
    if truthy d then
      let s ← getField d "start"
      if truthy s then
        let e ← getField d "end"
        if truthy e then
          return .str (env.convertDate s ++ " → " ++ env.convertDate e)
        else
          return .str (env.convertDate s)
      else
        return .str ""
    else
      return .str ""
  else if tag = "created_time" then do
    let c ← getField property "created_time"
    if truthy c then
      return .str (env.formatCreatedTime c)
    else
      return .str ""
  else if tag = "rich_text" then do
    let t ← getField property "rich_text"
    let cond ← lengthPos t
    if cond then
      let texts ← jsMap (fun item => getField item "plain_text") t
      return .str (jsJoin texts "\n")
    else
      return .str ""
  else if tag = "status" then do
    let s ← getField property "status"
    if truthy s then
      let name ← getField s "name"
      return name
    else
      return .str ""
  else if tag = "relation" then do
    let r ← getField property "relation"
    let cond ← lengthPos r
    if cond then
      let titles ← jsMap
        (fun rel => do
          let i ← getField rel "id"
          pure (.str (env.fetchPageTitle i)))
        r
      return .str (jsJoin titles ", ")
    else
      return .str ""
  else
    return .str ""

/-- `getPropertyData`, assembled: the initial `if (!property)` guard,
the `property.type` read, and the switch (a non-string `type` matches no
case and projects to `""`). -/
def getPropertyData (env : ProjectionEnv) (property : JVal) :
    Except String JVal := do
  if truthy property = false then
    return .str ""
  else
    let type ← getField property "type"
    match type with
    | .str tag => gpdSwitch env property tag
    | _ => return .str ""

/-- The `switch (type)` body of team.js `extractPropertyValue`.  It
differs from notion.js in the `date`, `created_time` and `relation`
renderings and in handling a `formula` case; its `relation` items are
rendered as `item.name || item.plain_text` without a nested fetch. -/
def epvSwitch (env : ProjectionEnv) (property : JVal) (tag : String) :
    Except String JVal :=
  if tag = "title" then do
    let t ← getField property "title"
    let cond ← lengthPos t
    if cond then
      let item ← jsIndex t 0
      let pt ← getField item "plain_text"
      return pt
    else
      return .str ""
  else if tag = "number" then do
    let n ← getField property "number"
    if strictNeqNull n then return n else return .str ""
  else if tag = "select" then do
    let s ← getField property "select"
    if truthy s then
      let name ← getField s "name"
      return name
    else
      return .str ""
  else if tag = "multi_select" then do
    let m ← getField property "multi_select"
    let cond ← lengthPos m
    if cond then
      let names ← jsMap (fun item => getField item "name") m
      return .str (jsJoin names ", ")
    else
      return .str ""
  else if tag = "email" then do
    let e ← getField property "email"
    if truthy e then return e else return .str ""
  else if tag = "date" then do
    let d ← getField property "date"
    if truthy d then
      let s ← getField d "start"
      if truthy s then
        return .str (env.formatDate s)
      else
        return .str ""
    else
      return .str ""
  else if tag = "created_time" then do
    let c ← getField property "created_time"
    if truthy c then
      return .str (env.formatCreatedLocale c)
    else
      return .str ""
  else if tag = "rich_text" then do
    let t ← getField property "rich_text"
    let cond ← lengthPos t
    if cond then
      let texts ← jsMap (fun item => getField item "plain_text") t
      return .str (jsJoin texts "\n")
    else
      return .str ""
  else if tag = "status" then do
    let s ← getField property "status"
    if truthy s then
      let name ← getField s "name"
      return name
    else
      return .str ""
  else if tag = "relation" then do
    let r ← getField property "relation"
    let cond ← lengthPos r
    if cond then
      let vals ← jsMap
        (fun item => do
          let n ← getField item "name"
          if truthy n then pure n else getField item "plain_text")
        r
      return .str (jsJoin vals ", ")
    else
      return .str ""
  else if tag = "formula" then do
    let f ← getField property "formula"
    let s ← getField f "string"
    if truthy s then
      return s
    else
      let n ← getField f "number"
      if strictNeqNull n then
        return n
      else
        let b ← getField f "boolean"
        if strictNeqNull b then
          let ts ← jsToStringMethod b
          return ts
        else
          return .str ""
  else
    return .str ""

/-- `extractPropertyValue`, assembled. -/
def extractPropertyValue (env : ProjectionEnv) (property : JVal) :
    Except String JVal := do
  if truthy property = false then
    return .str ""
  else
    let type ← getField property "type"
    match type with
    | .str tag => epvSwitch env property tag
    | _ => return .str ""

/-! ### Well-formed TypedValues

The data model's invariant: a property is `undefined`/`null`, or an
object whose tag-matching payload is populated (arrays of non-nullish
items for the list-shaped payloads; for a `formula`, exactly one of the
`string`/`number`/`boolean` payloads present, with the right type). -/

/-- A list-shaped payload (`title`, `rich_text`, `multi_select`,
`relation`): an array whose items support member access. -/
def wfArrayPayload (fs : List (String × JVal)) (field : String) : Prop :=
  ∃ items, fs.lookup field = some (.arr items) ∧
    ∀ item ∈ items, notNullish item = true

/-- A `formula` payload: exactly one of the three variants populated. -/
def wfFormulaPayload (f : JVal) : Prop :=
  ∃ gs, f = JVal.obj gs ∧
    (((∃ s, gs.lookup "string" = some (.str s)) ∧
        gs.lookup "number" = none ∧ gs.lookup "boolean" = none) ∨
     ((∃ q, gs.lookup "number" = some (.num q)) ∧
        gs.lookup "string" = none ∧ gs.lookup "boolean" = none) ∨
     ((∃ b, gs.lookup "boolean" = some (.bool b)) ∧
        gs.lookup "string" = none ∧ gs.lookup "number" = none))

/-- Payload well-formedness, by type tag.  Tags whose handlers cannot
throw on any value (and unknown tags) carry no constraint. -/
def wfPayload (fs : List (String × JVal)) : Prop :=
  match fs.lookup "type" with
  | some (.str "title") => wfArrayPayload fs "title"
  | some (.str "rich_text") => wfArrayPayload fs "rich_text"
  | some (.str "multi_select") => wfArrayPayload fs "multi_select"
  | some (.str "relation") => wfArrayPayload fs "relation"
  | some (.str "formula") =>
    ∃ f, fs.lookup "formula" = some f ∧ wfFormulaPayload f
  | _ => True

/-- A TypedValue input: absent, null, or a well-formed property
object. -/
def WFProperty (p : JVal) : Prop :=
  p = .undef ∨ p = .null ∨ ∃ fs, p = .obj fs ∧ wfPayload fs

/-- The type tags handled by notion.js `getPropertyData`. -/
def handledTagsNotion : List String :=
  ["title", "number", "select", "multi_select", "email", "date",
   "created_time", "rich_text", "status", "relation"]

/-- The type tags handled by team.js `extractPropertyValue`. -/
def handledTagsTeam : List String :=
  handledTagsNotion ++ ["formula"]

/-- A concrete environment for evaluating the projectors (the formatting
helpers are irrelevant to the projected values asserted here). -/
def trivialEnv : ProjectionEnv :=
  { convertDate := fun _ => ""
    formatCreatedTime := fun _ => ""
    fetchPageTitle := fun _ => ""
    formatDate := fun _ => ""
    formatCreatedLocale := fun _ => "" }

/-! ## Theorems and supporting lemmas -/

/-- If every attempted response in the window fails retriably, the loop
exhausts all `remaining` iterations, sleeping `2 ^ n` after each attempt
`n`, and then evaluates the undeclared `lastFailedResponse`. -/
lemma fetchLoop_all_fail (resp : Nat → RemoteData) (sr : String → Bool) :
    ∀ remaining attempt,
      (∀ n, attempt ≤ n → n < attempt + remaining →
        (resp n).ok = false ∧ sr (resp n).error = true) →
      fetchLoop resp sr attempt remaining =
        { attempts := remaining
          sleeps := (List.range' attempt remaining).map (2 ^ ·)
          outcome := .lastFailedResponseRef } := by
  intro remaining
  induction remaining with
  | zero => intro attempt _; rfl
  | succ r ih =>
    intro attempt h
    have hfst := h attempt le_rfl (by omega)
    have hrest := ih (attempt + 1) (fun n h1 h2 => h n (by omega) (by omega))
    simp only [fetchLoop, hfst.1, hfst.2, hrest, Bool.false_eq_true, if_false,
      if_true, List.range'_succ, List.map_cons]

/-- If attempts `attempt ≤ n < N` fail retriably and attempt `N` succeeds
(with `N` inside the window), the loop returns attempt `N`'s response after
`N - attempt + 1` fetches, sleeping `2 ^ n` after each failed attempt. -/
lemma fetchLoop_success (resp : Nat → RemoteData) (sr : String → Bool)
    (N : Nat) (hok : (resp N).ok = true) :
    ∀ remaining attempt,
      (∀ n, attempt ≤ n → n < N →
        (resp n).ok = false ∧ sr (resp n).error = true) →
      attempt ≤ N → N < attempt + remaining →
      fetchLoop resp sr attempt remaining =
        { attempts := N - attempt + 1
          sleeps := (List.range' attempt (N - attempt)).map (2 ^ ·)
          outcome := .success N } := by
  intro remaining
  induction remaining with
  | zero => intro attempt _ _ hlt; omega
  | succ r ih =>
    intro attempt h hle hlt
    rcases Nat.eq_or_lt_of_le hle with heq | hlt2
    · subst heq
      simp [fetchLoop, hok]
    · have hfst := h attempt le_rfl hlt2
      have hrest := ih (attempt + 1) (fun n h1 h2 => h n (by omega) h2)
        (by omega) (by omega)
      simp only [fetchLoop, hfst.1, hfst.2, hrest, Bool.false_eq_true, if_false,
        if_true]
      have hN : N - attempt = (N - (attempt + 1)) + 1 := by omega
      rw [hN, List.range'_succ, List.map_cons]

/-- C2: with the default `maxRetries = 3` (hence at most `4` attempts),
a run of `N` retriable failures followed by a success makes
`fetchWithRetries` perform exactly `min (N + 1) 4` HTTP attempts — that is,
`N + 1` when `N + 1 ≤ 4` and `4` when `N ≥ 4` — sleeping `2 ^ n` seconds
right after each failed 0-indexed attempt `n` (so before each re-attempt),
and, when the success is reached, returning attempt `N`'s response. -/
theorem fetchWithRetries_attempt_count
    (resp : Nat → RemoteData) (sr : String → Bool) (N : Nat)
    (hfail : ∀ n, n < N → (resp n).ok = false ∧ sr (resp n).error = true)
    (hok : (resp N).ok = true) :
    (fetchWithRetries resp sr 3).attempts = min (N + 1) 4 ∧
    (fetchWithRetries resp sr 3).sleeps =
      (List.range (min N 4)).map (2 ^ ·) ∧
    (N + 1 ≤ 4 → (fetchWithRetries resp sr 3).outcome = .success N) := by
  unfold fetchWithRetries
  by_cases hN : N < 4
  · rw [fetchLoop_success resp sr N hok 4 0 (fun n _ h2 => hfail n h2)
      (Nat.zero_le N) (by omega)]
    refine ⟨by simp; omega, ?_, fun _ => rfl⟩
    have hmin : min N 4 = N := by omega
    rw [hmin, Nat.sub_zero, List.range_eq_range']
  · rw [fetchLoop_all_fail resp sr 4 0
      (fun n _ h2 => hfail n (by omega))]
    refine ⟨by simp; omega, ?_, fun h => by omega⟩
    have hmin : min N 4 = 4 := by omega
    rw [hmin, List.range_eq_range']

/-- Witness for C2: two retriable failures then a success yield exactly
three attempts, sleeping 1 second then 2 seconds between them. -/
theorem fetchWithRetries_attempt_count_witness :
    (fetchWithRetries
      (fun n => if n < 2 then ⟨false, "ratelimited"⟩ else ⟨true, ""⟩)
      (fun _ => true) 3).attempts = 3 ∧
    (fetchWithRetries
      (fun n => if n < 2 then ⟨false, "ratelimited"⟩ else ⟨true, ""⟩)
      (fun _ => true) 3).sleeps = [1, 2] := by
  have h := fetchWithRetries_attempt_count
    (fun n => if n < 2 then ⟨false, "ratelimited"⟩ else ⟨true, ""⟩)
    (fun _ => true) 2
    (fun n hn => by simp [hn])
    (by norm_num)
  exact ⟨h.1.trans (by norm_num), h.2.1.trans (by decide)⟩

/-- C1: with the default retry budget and every response a retriable
failure, `fetchWithRetries` exhausts its four attempts and then executes
`return lastFailedResponse;`.  The identifier `lastFailedResponse` is
declared and assigned nowhere in the repository, so this statement throws
a `ReferenceError` instead of returning the last received response. -/
theorem fetchWithRetries_exhausted_hits_undeclared_identifier :
    fetchWithRetries (fun _ => ⟨false, "ratelimited"⟩) (fun _ => true) 3 =
      { attempts := 4, sleeps := [1, 2, 4, 8],
        outcome := .lastFailedResponseRef } := by
  decide

/-! Association-list facts about the email map. -/

lemma lookup_entry_split {α : Type} (q k : String) (v : α)
    (rest : List (String × α)) :
    ((k, v) :: rest).lookup q = if q = k then some v else rest.lookup q := by
  by_cases h : q = k
  · subst h; simp [List.lookup_cons]
  · have hb : (q == k) = false := beq_eq_false_iff_ne.mpr h
    simp [List.lookup_cons, hb, h]

lemma lookup_append_single {α : Type} (m : List (String × α))
    (q k : String) (v : α) :
    (m ++ [(k, v)]).lookup q =
      match m.lookup q with
      | some w => some w
      | none => if q = k then some v else none := by
  induction m with
  | nil => simp [lookup_entry_split]
  | cons kv rest ih =>
    obtain ⟨k1, v1⟩ := kv
    by_cases h : q = k1
    · simp [List.cons_append, lookup_entry_split, h]
    · rw [List.cons_append, lookup_entry_split, if_neg h, ih,
        lookup_entry_split, if_neg h]

lemma lookup_mapPush_self (m : List (String × List String))
    (email id : String) :
    (m.map (fun kv => if kv.1 = email then (kv.1, kv.2 ++ [id]) else kv)).lookup
        email = (m.lookup email).map (fun v => v ++ [id]) := by
  induction m with
  | nil => simp
  | cons kv rest ih =>
    obtain ⟨k1, v1⟩ := kv
    by_cases h : k1 = email
    · subst h
      simp [lookup_entry_split]
    · have h2 : email ≠ k1 := fun e => h e.symm
      simp only [List.map_cons, if_neg h, lookup_entry_split, if_neg h2, ih]

lemma lookup_mapPush_other (m : List (String × List String))
    (email id q : String) (hq : q ≠ email) :
    (m.map (fun kv => if kv.1 = email then (kv.1, kv.2 ++ [id]) else kv)).lookup
        q = m.lookup q := by
  induction m with
  | nil => simp
  | cons kv rest ih =>
    obtain ⟨k1, v1⟩ := kv
    by_cases h : k1 = email
    · subst h
      simp [lookup_entry_split, hq, ih]
    · by_cases h3 : q = k1
      · subst h3
        simp [lookup_entry_split, h]
      · simp only [List.map_cons, if_neg h, lookup_entry_split, if_neg h3, ih]

lemma lookup_pushEmail_self (m : List (String × List String))
    (email id : String) :
    (pushEmail m email id).lookup email =
      some (((m.lookup email).getD []) ++ [id]) := by
  unfold pushEmail
  by_cases hs : (m.lookup email).isSome
  · rw [if_pos hs, lookup_mapPush_self]
    obtain ⟨v, hv⟩ := Option.isSome_iff_exists.mp hs
    rw [hv]; rfl
  · rw [if_neg hs, lookup_append_single]
    rw [Option.not_isSome_iff_eq_none.mp hs]
    simp

lemma lookup_pushEmail_other (m : List (String × List String))
    (email id q : String) (hq : q ≠ email) :
    (pushEmail m email id).lookup q = m.lookup q := by
  unfold pushEmail
  by_cases hs : (m.lookup email).isSome
  · rw [if_pos hs, lookup_mapPush_other m email id q hq]
  · rw [if_neg hs, lookup_append_single]
    cases h : m.lookup q with
    | some w => rfl
    | none => simp [hq]

/-- Folding the target pages onto a map whose entry for `k` is `cur`
appends exactly the matching target ids to that entry. -/
lemma lookup_foldl_emailMapStep_some (k : String) (hk : k ≠ "") :
    ∀ (pages : List LinkPage) (m : List (String × List String))
      (cur : List String), m.lookup k = some cur →
      ((pages.foldl emailMapStep m).lookup k) =
        some (cur ++ matchingTargets pages k) := by
  intro pages
  induction pages with
  | nil =>
    intro m cur hm
    simp [matchingTargets, hm]
  | cons p rest ih =>
    intro m cur hm
    rw [List.foldl_cons]
    by_cases hp : joinKey p = k
    · have hmt : matchingTargets (p :: rest) k =
          p.id :: matchingTargets rest k := by
        simp [matchingTargets, hp]
      have hstep : emailMapStep m p = pushEmail m k p.id := by
        simp [emailMapStep, hp, hk]
      rw [hstep, hmt]
      have hlook : (pushEmail m k p.id).lookup k = some (cur ++ [p.id]) := by
        rw [lookup_pushEmail_self, hm]
        rfl
      rw [ih (pushEmail m k p.id) (cur ++ [p.id]) hlook]
      simp
    · have hmt : matchingTargets (p :: rest) k = matchingTargets rest k := by
        simp [matchingTargets, hp]
      rw [hmt]
      by_cases hpe : joinKey p = ""
      · have hstep : emailMapStep m p = m := by
          simp [emailMapStep, hpe]
        rw [hstep]
        exact ih m cur hm
      · have hstep : emailMapStep m p = pushEmail m (joinKey p) p.id := by
          simp [emailMapStep, hpe]
        rw [hstep]
        exact ih _ cur (by
          rw [lookup_pushEmail_other m (joinKey p) p.id k
            (fun h => hp h.symm)]
          exact hm)

/-- Folding the target pages onto a map with no entry for `k` produces an
entry for `k` exactly when some target matches, holding the full ordered
list of matching target ids. -/
lemma lookup_foldl_emailMapStep_none (k : String) (hk : k ≠ "") :
    ∀ (pages : List LinkPage) (m : List (String × List String)),
      m.lookup k = none →
      ((pages.foldl emailMapStep m).lookup k) =
        if matchingTargets pages k = [] then none
        else some (matchingTargets pages k) := by
  intro pages
  induction pages with
  | nil =>
    intro m hm
    simp [matchingTargets, hm]
  | cons p rest ih =>
    intro m hm
    rw [List.foldl_cons]
    by_cases hp : joinKey p = k
    · have hmt : matchingTargets (p :: rest) k =
          p.id :: matchingTargets rest k := by
        simp [matchingTargets, hp]
      have hstep : emailMapStep m p = pushEmail m k p.id := by
        simp [emailMapStep, hp, hk]
      rw [hstep, hmt]
      have hlook : (pushEmail m k p.id).lookup k = some [p.id] := by
        rw [lookup_pushEmail_self, hm]
        rfl
      rw [lookup_foldl_emailMapStep_some k hk rest _ [p.id] hlook]
      simp
    · have hmt : matchingTargets (p :: rest) k = matchingTargets rest k := by
        simp [matchingTargets, hp]
      rw [hmt]
      by_cases hpe : joinKey p = ""
      · have hstep : emailMapStep m p = m := by
          rw [emailMapStep]
          simp [hpe]
        rw [hstep]
        exact ih m hm
      · have hstep : emailMapStep m p = pushEmail m (joinKey p) p.id := by
          rw [emailMapStep]
          simp [hpe]
        rw [hstep]
        exact ih _ (by
          rw [lookup_pushEmail_other m (joinKey p) p.id k
            (fun h => hp h.symm)]
          exact hm)

/-- Lookup in the built email map is exactly the full list of matching
target ids (absent when no target matches). -/
lemma lookup_buildEmailToPageIdMap (pages : List LinkPage) (k : String)
    (hk : k ≠ "") :
    (buildEmailToPageIdMap pages).lookup k =
      if matchingTargets pages k = [] then none
      else some (matchingTargets pages k) := by
  rw [buildEmailToPageIdMap]
  exact lookup_foldl_emailMapStep_none k hk pages [] (by simp)

/-- The built email map has no entry for the empty key. -/
lemma lookup_buildEmailToPageIdMap_empty (pages : List LinkPage) :
    (buildEmailToPageIdMap pages).lookup "" = none := by
  rw [buildEmailToPageIdMap]
  suffices h : ∀ m : List (String × List String), m.lookup "" = none →
      ((pages.foldl emailMapStep m).lookup "") = none by
    exact h [] (by simp)
  induction pages with
  | nil => intro m hm; simpa using hm
  | cons p rest ih =>
    intro m hm
    rw [List.foldl_cons]
    by_cases hpe : joinKey p = ""
    · have hstep : emailMapStep m p = m := by
        rw [emailMapStep]; simp [hpe]
      rw [hstep]
      exact ih m hm
    · have hstep : emailMapStep m p = pushEmail m (joinKey p) p.id := by
        rw [emailMapStep]; simp [hpe]
      rw [hstep]
      exact ih _ (by
        rw [lookup_pushEmail_other m (joinKey p) p.id "" (Ne.symm hpe)]
        exact hm)

/-- Every entry of the built email map is a non-empty id list. -/
lemma buildEmailToPageIdMap_entry_ne_nil (pages : List LinkPage)
    (k : String) (ids : List String)
    (h : (buildEmailToPageIdMap pages).lookup k = some ids) : ids ≠ [] := by
  by_cases hk : k = ""
  · rw [hk, lookup_buildEmailToPageIdMap_empty] at h
    exact Option.noConfusion h
  · rw [lookup_buildEmailToPageIdMap pages k hk] at h
    by_cases hmt : matchingTargets pages k = []
    · rw [if_pos hmt] at h
      exact Option.noConfusion h
    · rw [if_neg hmt] at h
      rw [← Option.some.inj h]
      exact hmt

lemma lookup_mem {α : Type} (l : List (String × α)) (k : String) (v : α)
    (h : l.lookup k = some v) : (k, v) ∈ l := by
  induction l with
  | nil => simp at h
  | cons kv rest ih =>
    obtain ⟨k1, v1⟩ := kv
    rw [lookup_entry_split] at h
    by_cases hk : k = k1
    · rw [if_pos hk] at h
      obtain rfl := Option.some.inj h
      rw [hk]
      exact List.mem_cons_self _ _
    · rw [if_neg hk] at h
      exact List.mem_cons_of_mem _ (ih h)

lemma lookup_none_not_mem {α : Type} (l : List (String × α)) (k : String)
    (h : l.lookup k = none) (v : α) : (k, v) ∉ l := by
  induction l with
  | nil => simp
  | cons kv rest ih =>
    obtain ⟨k1, v1⟩ := kv
    rw [lookup_entry_split] at h
    by_cases hk : k = k1
    · rw [if_pos hk] at h
      exact Option.noConfusion h
    · rw [if_neg hk] at h
      intro hmem
      rcases List.mem_cons.mp hmem with heq | hmem2
      · exact hk (congrArg Prod.fst heq)
      · exact ih h hmem2

/-- Shape of a produced `Link` decision: it is for the record's own id,
the record's relation was empty, its key non-empty, and the payload is the
map entry for its key. -/
lemma pageDecision_eq_some (m : List (String × List String)) (p : LinkPage)
    (d : String × List String) (h : pageDecision m p = some d) :
    d.1 = p.id ∧ relationEmpty p = true ∧ joinKey p ≠ "" ∧
      m.lookup (joinKey p) = some d.2 := by
  simp only [pageDecision] at h
  by_cases hk : joinKey p ≠ ""
  · rw [if_pos hk] at h
    cases hl : m.lookup (joinKey p) with
    | none => rw [hl] at h; exact absurd h (by simp)
    | some ids =>
      rw [hl] at h
      change (if relationEmpty p = true then some (p.id, ids) else none)
        = some d at h
      by_cases hr : relationEmpty p
      · rw [if_pos hr] at h
        obtain rfl := Option.some.inj h
        exact ⟨rfl, hr, hk, rfl⟩
      · rw [if_neg hr] at h
        exact absurd h (by simp)
  · rw [if_neg hk] at h
    exact absurd h (by simp)

/-- A record that already carries at least one link is always a NoOp. -/
lemma pageDecision_none_of_relation_nonempty
    (m : List (String × List String)) (p : LinkPage)
    (h : relationEmpty p = false) : pageDecision m p = none := by
  simp only [pageDecision]
  by_cases hk : joinKey p ≠ ""
  · rw [if_pos hk]
    cases hl : m.lookup (joinKey p) with
    | none => rfl
    | some ids => simp [h]
  · rw [if_neg hk]

/-- A record with an empty normalized key is always a NoOp. -/
lemma pageDecision_none_of_empty_key
    (m : List (String × List String)) (p : LinkPage)
    (h : joinKey p = "") : pageDecision m p = none := by
  simp only [pageDecision, h]
  simp

/-- Every decision of a run comes from a source record via
`pageDecision`. -/
lemma mem_linkDatabases (pages1 pages2 : List LinkPage)
    (d : String × List String) (h : d ∈ linkDatabases pages1 pages2) :
    ∃ p ∈ pages1,
      pageDecision (buildEmailToPageIdMap pages2) p = some d := by
  unfold linkDatabases at h
  by_cases hg : pages1.isEmpty = true ∨ pages2.isEmpty = true
  · rw [if_pos hg] at h
    exact absurd h (List.not_mem_nil d)
  · rw [if_neg hg] at h
    obtain ⟨p, hp, hd⟩ := List.mem_filterMap.mp h
    exact ⟨p, hp, hd⟩

/-- Every decision payload of a run is a non-empty id list. -/
lemma linkDatabases_payload_ne_nil (pages1 pages2 : List LinkPage)
    (d : String × List String) (h : d ∈ linkDatabases pages1 pages2) :
    d.2 ≠ [] := by
  obtain ⟨p, _, hd⟩ := mem_linkDatabases pages1 pages2 d h
  obtain ⟨_, _, _, hlook⟩ := pageDecision_eq_some _ p d hd
  exact buildEmailToPageIdMap_entry_ne_nil pages2 (joinKey p) d.2 hlook

/-- C3 (amended): for a source record whose normalized key is present in
the target index, the engine produces a `Link` decision carrying the full
list of matched target identities — not just one — exactly when the record
carries no target link at all (its relation property is absent or empty);
as soon as the record already carries at least one link it is a NoOp, even
when some expected links are missing. -/
theorem linkDatabases_links_full_multiplicity_iff_unlinked
    (pages1 pages2 : List LinkPage) (p : LinkPage)
    (hp : p ∈ pages1) (hkey : joinKey p ≠ "")
    (hmatch : matchingTargets pages2 (joinKey p) ≠ []) :
    (relationEmpty p = true →
      (p.id, matchingTargets pages2 (joinKey p)) ∈ linkDatabases pages1 pages2) ∧
    (relationEmpty p = false →
      pageDecision (buildEmailToPageIdMap pages2) p = none) := by
  have hlookup : (buildEmailToPageIdMap pages2).lookup (joinKey p) =
      some (matchingTargets pages2 (joinKey p)) := by
    rw [lookup_buildEmailToPageIdMap pages2 (joinKey p) hkey, if_neg hmatch]
  constructor
  · intro hrel
    have hdec : pageDecision (buildEmailToPageIdMap pages2) p =
        some (p.id, matchingTargets pages2 (joinKey p)) := by
      simp only [pageDecision, hlookup]
      rw [if_pos hkey, hrel]
      simp
    have hne1 : ¬pages1.isEmpty = true := by
      cases pages1 with
      | nil => exact absurd hp (List.not_mem_nil p)
      | cons a l => simp
    have hne2 : ¬pages2.isEmpty = true := by
      cases pages2 with
      | nil => simp [matchingTargets] at hmatch
      | cons a l => simp
    unfold linkDatabases
    rw [if_neg (by
      intro hor
      rcases hor with h1 | h2
      · exact hne1 h1
      · exact hne2 h2)]
    exact List.mem_filterMap.mpr ⟨p, hp, hdec⟩
  · intro hrel
    exact pageDecision_none_of_relation_nonempty _ p hrel

/-- Counterexample for C3 as stated: the source record carries one link
(`tgt1`) while its key matches two targets (`tgt1`, `tgt2`), so it does not
yet carry ALL expected target links — yet the engine issues no `Link`
decision at all, because it only checks that the relation is non-empty. -/
theorem linkDatabases_partial_links_are_skipped :
    matchingTargets
        [⟨"tgt1", some "a@x.com", none⟩, ⟨"tgt2", some "a@x.com", none⟩]
        (joinKey ⟨"src1", some "a@x.com", some ["tgt1"]⟩) =
      ["tgt1", "tgt2"] ∧
    linkDatabases [⟨"src1", some "a@x.com", some ["tgt1"]⟩]
        [⟨"tgt1", some "a@x.com", none⟩, ⟨"tgt2", some "a@x.com", none⟩] =
      [] := by
  constructor
  · rfl
  · rfl

/-- Witness for C3 (amended): a fully unlinked source record is linked to
both matching targets in one decision, and a partially linked record's
per-record decision is a NoOp. -/
theorem linkDatabases_links_full_multiplicity_iff_unlinked_witness :
    ("src1", ["tgt1", "tgt2"]) ∈
      linkDatabases [⟨"src1", some "a@x.com", none⟩]
        [⟨"tgt1", some "a@x.com", none⟩, ⟨"tgt2", some "a@x.com", none⟩] ∧
    pageDecision
      (buildEmailToPageIdMap
        [⟨"tgt1", some "a@x.com", none⟩, ⟨"tgt2", some "a@x.com", none⟩])
      ⟨"src2", some "a@x.com", some ["tgt1"]⟩ = none := by
  have h1 := linkDatabases_links_full_multiplicity_iff_unlinked
    [⟨"src1", some "a@x.com", none⟩]
    [⟨"tgt1", some "a@x.com", none⟩, ⟨"tgt2", some "a@x.com", none⟩]
    ⟨"src1", some "a@x.com", none⟩
    (List.mem_singleton.mpr rfl) (by decide) (by decide)
  have h2 := linkDatabases_links_full_multiplicity_iff_unlinked
    [⟨"src2", some "a@x.com", some ["tgt1"]⟩]
    [⟨"tgt1", some "a@x.com", none⟩, ⟨"tgt2", some "a@x.com", none⟩]
    ⟨"src2", some "a@x.com", some ["tgt1"]⟩
    (List.mem_singleton.mpr rfl) (by decide) (by decide)
  exact ⟨h1.1 rfl, h2.2 rfl⟩

/-- A run whose per-record decisions are all NoOps issues no writes. -/
lemma linkDatabases_eq_nil_of_all_noop (pages1 pages2 : List LinkPage)
    (h : ∀ p ∈ pages1, pageDecision (buildEmailToPageIdMap pages2) p = none) :
    linkDatabases pages1 pages2 = [] := by
  unfold linkDatabases
  by_cases hg : pages1.isEmpty = true ∨ pages2.isEmpty = true
  · rw [if_pos hg]
  · rw [if_neg hg]
    exact List.filterMap_eq_nil_iff.mpr h

/-- After applying a run's writes, every record's per-record decision is a
NoOp. -/
lemma pageDecision_after_applyWrite (pages1 pages2 : List LinkPage)
    (p : LinkPage) (hp : p ∈ pages1) :
    pageDecision (buildEmailToPageIdMap pages2)
      (applyWrite (linkDatabases pages1 pages2) p) = none := by
  unfold applyWrite
  cases hl : (linkDatabases pages1 pages2).lookup p.id with
  | some ids =>
    have hmem : (p.id, ids) ∈ linkDatabases pages1 pages2 :=
      lookup_mem _ p.id ids hl
    have hne : ids ≠ [] :=
      linkDatabases_payload_ne_nil pages1 pages2 (p.id, ids) hmem
    apply pageDecision_none_of_relation_nonempty
    show relationEmpty { p with syncRelation := some ids } = false
    simp only [relationEmpty]
    cases ids with
    | nil => exact absurd rfl hne
    | cons a l => rfl
  | none =>
    cases hd : pageDecision (buildEmailToPageIdMap pages2) p with
    | none => rfl
    | some d =>
      exfalso
      have hshape := pageDecision_eq_some _ p d hd
      have hg1 : ¬pages1.isEmpty = true := by
        cases pages1 with
        | nil => exact absurd hp (List.not_mem_nil p)
        | cons a l => simp
      have hg2 : ¬pages2.isEmpty = true := by
        have hlk := hshape.2.2.2
        intro hh
        rw [List.isEmpty_iff.mp hh] at hlk
        simp [buildEmailToPageIdMap] at hlk
      have hmem : d ∈ linkDatabases pages1 pages2 := by
        unfold linkDatabases
        rw [if_neg (by
          intro hor
          rcases hor with h1 | h2
          · exact hg1 h1
          · exact hg2 h2)]
        exact List.mem_filterMap.mpr ⟨p, hp, hd⟩
      have hmem2 : (p.id, d.2) ∈ linkDatabases pages1 pages2 := by
        have hd2 : d = (p.id, d.2) := by
          rw [← hshape.1]
        rw [← hd2]
        exact hmem
      exact lookup_none_not_mem _ p.id hl d.2 hmem2

/-- C4: (idempotence) after applying the PATCHes of a first
`linkDatabases` run to the source collection, a second run against the
unchanged target collection issues zero relation-update writes; and
(additivity) every write of a run targets a record whose relation was
empty or absent beforehand — so no existing link is ever removed — and
carries a non-empty payload. -/
theorem linkDatabases_idempotent_and_never_destructive
    (pages1 pages2 : List LinkPage) :
    linkDatabases (applyWrites pages1 (linkDatabases pages1 pages2)) pages2
      = [] ∧
    ∀ d ∈ linkDatabases pages1 pages2,
      (∃ p ∈ pages1, p.id = d.1 ∧ relationEmpty p = true) ∧ d.2 ≠ [] := by
  constructor
  · apply linkDatabases_eq_nil_of_all_noop
    intro p' hp'
    obtain ⟨p, hp, hap⟩ := List.mem_map.mp hp'
    rw [← hap]
    exact pageDecision_after_applyWrite pages1 pages2 p hp
  · intro d hd
    obtain ⟨p, hp, hdec⟩ := mem_linkDatabases pages1 pages2 d hd
    obtain ⟨h1, h2, _, _⟩ := pageDecision_eq_some _ p d hdec
    exact ⟨⟨p, hp, h1.symm, h2⟩,
      linkDatabases_payload_ne_nil pages1 pages2 d hd⟩

/-- Witness for C4: a concrete one-source/one-target pair that links on
the first run and issues zero writes on the second. -/
theorem linkDatabases_idempotent_witness :
    linkDatabases
      (applyWrites [⟨"src1", some "a@x.com", none⟩]
        (linkDatabases [⟨"src1", some "a@x.com", none⟩]
          [⟨"tgt1", some "a@x.com", none⟩]))
      [⟨"tgt1", some "a@x.com", none⟩] = [] :=
  (linkDatabases_idempotent_and_never_destructive
    [⟨"src1", some "a@x.com", none⟩] [⟨"tgt1", some "a@x.com", none⟩]).1

lemma lookup_mapSet_other {α : Type} (m : List (String × α))
    (k : String) (v : α) (q : String) (hq : q ≠ k) :
    (m.map (fun kv => if kv.1 = k then (kv.1, v) else kv)).lookup q =
      m.lookup q := by
  induction m with
  | nil => simp
  | cons kv rest ih =>
    obtain ⟨k1, v1⟩ := kv
    by_cases h : k1 = k
    · subst h
      simp [lookup_entry_split, hq, ih]
    · by_cases h3 : q = k1
      · subst h3
        simp [lookup_entry_split, h]
      · simp only [List.map_cons, if_neg h, lookup_entry_split, if_neg h3, ih]

lemma lookup_setNameEntry_other {α : Type} (m : List (String × α))
    (k : String) (v : α) (q : String) (hq : q ≠ k) :
    (setNameEntry m k v).lookup q = m.lookup q := by
  unfold setNameEntry
  by_cases hs : (m.lookup k).isSome
  · rw [if_pos hs, lookup_mapSet_other m k v q hq]
  · rw [if_neg hs, lookup_append_single]
    cases h : m.lookup q with
    | some w => rfl
    | none => simp [hq]

/-- The name map has no entry for the empty key. -/
lemma lookup_nameToDataMap_empty {α : Type}
    (rows : List (Option String × α)) :
    (nameToDataMap rows).lookup "" = none := by
  unfold nameToDataMap
  suffices h : ∀ m : List (String × α), m.lookup "" = none →
      ((rows.foldl
        (fun m r =>
          let name := ttKey r.1
          if name ≠ "" then setNameEntry m name r.2 else m) m).lookup "")
        = none by
    exact h [] (by simp)
  induction rows with
  | nil => intro m hm; simpa using hm
  | cons r rest ih =>
    intro m hm
    rw [List.foldl_cons]
    by_cases hr : ttKey r.1 = ""
    · simpa [hr] using ih m hm
    · have hstep :
          (let name := ttKey r.1
           if name ≠ "" then setNameEntry m name r.2 else m) =
            setNameEntry m (ttKey r.1) r.2 := by
        simp [hr]
      rw [hstep]
      exact ih _ (by
        rw [lookup_setNameEntry_other m (ttKey r.1) r.2 "" (Ne.symm hr)]
        exact hm)

/-- C5 (amended): join keys are compared case-insensitively and empty keys
never match, but only `timeTrackerRecap` also trims: (1) in
`linkDatabases` a single source matches a single target exactly when their
`toLowerCase`-normalized emails are equal and non-empty (no trimming) and
the source is unlinked; (2) in `timeTrackerRecap` the keys
`"Foo@Bar.com "` and `"foo@bar.com"` select the same map data for every
external sheet; (3) a target row whose key cell is empty or absent never
matches any entry and receives the defaults. -/
theorem joinKey_normalization
    (s t : LinkPage) (α : Type) (rows : List (Option String × α)) (d : α) :
    (linkDatabases [s] [t] ≠ [] ↔
      (joinKey s ≠ "" ∧ joinKey t = joinKey s ∧ relationEmpty s = true)) ∧
    dataForTarget (nameToDataMap rows) (some "Foo@Bar.com ") d =
      dataForTarget (nameToDataMap rows) (some "foo@bar.com") d ∧
    dataForTarget (nameToDataMap rows) none d = d ∧
    dataForTarget (nameToDataMap rows) (some "") d = d := by
  refine ⟨?_, ?_, ?_, ?_⟩
  · have hL : linkDatabases [s] [t] =
        (match pageDecision (buildEmailToPageIdMap [t]) s with
          | some dd => [dd]
          | none => []) := by
      unfold linkDatabases
      rw [if_neg (by simp)]
      simp only [List.filterMap_cons, List.filterMap_nil]
      cases pageDecision (buildEmailToPageIdMap [t]) s <;> rfl
    rw [hL]
    by_cases hks : joinKey s = ""
    · rw [pageDecision_none_of_empty_key _ s hks]
      simp [hks]
    · have hmt : matchingTargets [t] (joinKey s) =
          if joinKey t = joinKey s then [t.id] else [] := by
        by_cases h : joinKey t = joinKey s <;> simp [matchingTargets, h]
      by_cases hkt : joinKey t = joinKey s
      · have hlook : (buildEmailToPageIdMap [t]).lookup (joinKey s) =
            some [t.id] := by
          rw [lookup_buildEmailToPageIdMap [t] _ hks, hmt, if_pos hkt]
          simp
        simp only [pageDecision, hlook]
        rw [if_pos hks]
        by_cases hrel : relationEmpty s
        · rw [if_pos hrel]
          simp [hks, hkt, hrel]
        · rw [if_neg hrel]
          simp only [Bool.not_eq_true] at hrel
          simp [hks, hkt, hrel]
      · have hlook : (buildEmailToPageIdMap [t]).lookup (joinKey s) =
            none := by
          rw [lookup_buildEmailToPageIdMap [t] _ hks, hmt, if_neg hkt]
          simp
        simp only [pageDecision, hlook]
        rw [if_pos hks]
        simp [hkt]
  · have hkeys : ttKey (some "Foo@Bar.com ") = ttKey (some "foo@bar.com") :=
      by decide
    unfold dataForTarget
    rw [hkeys]
  · unfold dataForTarget
    have hk : ttKey none = "" := rfl
    rw [hk, lookup_nameToDataMap_empty]
  · unfold dataForTarget
    have hk : ttKey (some "") = "" := rfl
    rw [hk, lookup_nameToDataMap_empty]

/-- Counterexample for C5 as stated: in `linkDatabases` the key
`"Foo@Bar.com "` (trailing space) does NOT match the target key
`"foo@bar.com"`, because the engine lower-cases but never trims; with the
space removed the same pair links.  So trimming is not part of this
engine's key normalization. -/
theorem linkDatabases_untrimmed_key_mismatch :
    linkDatabases [⟨"s1", some "Foo@Bar.com ", none⟩]
        [⟨"t1", some "foo@bar.com", none⟩] = [] ∧
    linkDatabases [⟨"s1", some "foo@bar.com", none⟩]
        [⟨"t1", some "foo@bar.com", none⟩] = [("s1", ["t1"])] := by
  exact ⟨rfl, rfl⟩

/-- Witness for C5 (amended): case-insensitive matching links a concrete
pair in `linkDatabases`; trimming+lower-casing makes `"Foo@Bar.com "` and
`"foo@bar.com"` select the same data in `timeTrackerRecap`; an absent key
cell receives the defaults. -/
theorem joinKey_normalization_witness :
    linkDatabases [⟨"s1", some "A@X.com", none⟩]
        [⟨"t1", some "a@x.com", none⟩] ≠ [] ∧
    dataForTarget (nameToDataMap [(some "foo@bar.com", "data1")])
        (some "Foo@Bar.com ") "" =
      dataForTarget (nameToDataMap [(some "foo@bar.com", "data1")])
        (some "foo@bar.com") "" ∧
    dataForTarget (nameToDataMap ([] : List (Option String × String)))
        none "defaults" = "defaults" := by
  have h := joinKey_normalization
    ⟨"s1", some "A@X.com", none⟩ ⟨"t1", some "a@x.com", none⟩
    String [(some "foo@bar.com", "data1")] ""
  have h2 := joinKey_normalization
    ⟨"s1", some "A@X.com", none⟩ ⟨"t1", some "a@x.com", none⟩
    String ([] : List (Option String × String)) "defaults"
  exact ⟨h.1.mpr (by refine ⟨by decide, by decide, rfl⟩), h.2.1, h2.2.2.1⟩

/-- C6: when the remote yields some successful pages (HTTP 200, a
`results` field, `has_more = true`) and then a page whose response lacks
the `results` field, the fetcher stops at that page, logs a fetch error,
makes no further calls, and returns exactly the records accumulated from
the earlier pages, in order — without throwing. -/
theorem fetchAllPages_stops_on_missing_results {α : Type}
    (good : List (QueryResponse α)) (bad : QueryResponse α)
    (rest : List (QueryResponse α))
    (hgood : ∀ g ∈ good, g.code = 200 ∧ g.results.isSome = true ∧
      g.has_more = true)
    (hbadcode : bad.code = 200) (hbad : bad.results = none) :
    fetchAllPages (good ++ bad :: rest) =
      { pages := (good.map (fun g => g.results.getD [])).flatten
        calls := good.length + 1
        errorLogged := true } := by
  induction good with
  | nil =>
    simp only [List.nil_append, List.map_nil, List.length_nil]
    unfold fetchAllPages
    rw [if_neg (by omega), hbad]
    rfl
  | cons g gs ih =>
    have hg := hgood g (List.mem_cons_self g gs)
    obtain ⟨recs, hrecs⟩ := Option.isSome_iff_exists.mp hg.2.1
    have ihr := ih (fun x hx => hgood x (List.mem_cons_of_mem g hx))
    simp only [List.cons_append]
    unfold fetchAllPages
    rw [if_neg (by omega), hrecs]
    simp only [hg.2.2, if_true, ihr]
    simp [hrecs]

/-- Witness for C6 (end-to-end scenario 2): a successful first page with
two records followed by a page with `results: undefined` returns exactly
the first page's records after two calls, with a fetch error logged. -/
theorem fetchAllPages_stops_on_missing_results_witness :
    fetchAllPages
      [{ code := 200, results := some ["r1", "r2"], has_more := true,
         next_cursor := some "cursor1" },
       { code := 200, results := none, has_more := false,
         next_cursor := none }] =
      { pages := ["r1", "r2"], calls := 2, errorLogged := true } := by
  have h := fetchAllPages_stops_on_missing_results
    [{ code := 200, results := some ["r1", "r2"], has_more := true,
       next_cursor := some "cursor1" }]
    { code := 200, results := none, has_more := false, next_cursor := none }
    []
    (by intro g hg; rw [List.mem_singleton.mp hg]; exact ⟨rfl, rfl, rfl⟩)
    rfl rfl
  exact h.trans (by rfl)

/-- C8: every field placed in the outbound patch differs from the current
remote value (numbers compared after rounding to one decimal, dates as the
formatted ISO string), and a row whose patch is empty never results in an
`update` call; in particular proposed hours `3.14159` against remote `3.1`
(with no date cell) is skipped with no write. -/
theorem syncGoogleSheetToNotion_change_gated (toISO : String → String)
    (notionUrl : String) (hoursCurrent : Option ℚ)
    (lastUpdate : Option String) (remote : NotionProps) :
    (∀ f ∈ propertiesToUpdate toISO hoursCurrent lastUpdate remote,
      (∀ q, f = PatchField.hoursCurrent q →
        q = roundTo1 (hoursCurrent.getD 0) ∧
        remote.hoursCurrentNumber ≠ some q) ∧
      (∀ s, f = PatchField.hoursLastUpdate s →
        s = toISO (lastUpdate.getD "") ∧
        remote.lastUpdateDateStart ≠ some s)) ∧
    (propertiesToUpdate toISO hoursCurrent lastUpdate remote = [] →
      ∀ patch, syncGoogleSheetToNotionRow toISO notionUrl hoursCurrent
        lastUpdate remote ≠ .update patch) ∧
    (∀ toISO2 : String → String,
      syncGoogleSheetToNotionRow toISO2
        "https://www.notion.so/grey-box/People-da052a0ffb3a428d8e7013c540c42665"
        (some (314159 / 100000 : ℚ)) none
        { hoursCurrentNumber := some (31 / 10 : ℚ),
          lastUpdateDateStart := none } = .skippedNoChanges) := by
  refine ⟨?_, ?_, fun toISO2 => ?_⟩
  · intro f hf
    unfold propertiesToUpdate at hf
    rw [List.mem_append] at hf
    rcases hf with hf | hf
    · by_cases h1 : numTruthy hoursCurrent
      · rw [if_pos h1] at hf
        by_cases h2 : remote.hoursCurrentNumber ≠
            some (roundTo1 (hoursCurrent.getD 0))
        · simp only [if_pos h2] at hf
          rw [List.mem_singleton.mp hf]
          constructor
          · intro q hq
            obtain rfl := PatchField.hoursCurrent.inj hq
            exact ⟨rfl, h2⟩
          · intro s hs
            exact absurd hs (by simp)
        · simp only [if_neg h2] at hf
          exact absurd hf (List.not_mem_nil f)
      · rw [if_neg h1] at hf
        exact absurd hf (List.not_mem_nil f)
    · by_cases h1 : strTruthy lastUpdate
      · rw [if_pos h1] at hf
        by_cases h2 : remote.lastUpdateDateStart ≠
            some (toISO (lastUpdate.getD ""))
        · simp only [if_pos h2] at hf
          rw [List.mem_singleton.mp hf]
          constructor
          · intro q hq
            exact absurd hq (by simp)
          · intro s hs
            obtain rfl := PatchField.hoursLastUpdate.inj hs
            exact ⟨rfl, h2⟩
        · simp only [if_neg h2] at hf
          exact absurd hf (List.not_mem_nil f)
      · rw [if_neg h1] at hf
        exact absurd hf (List.not_mem_nil f)
  · intro hempty patch
    unfold syncGoogleSheetToNotionRow
    by_cases hskip : numTruthy hoursCurrent = false ∧
        strTruthy lastUpdate = false
    · rw [if_pos hskip]
      exact fun h => RowOutcome.noConfusion h
    · rw [if_neg hskip]
      cases extractNotionPageId notionUrl with
      | none => exact fun h => RowOutcome.noConfusion h
      | some pid =>
        simp only [hempty, List.length_nil]
        exact fun h => RowOutcome.noConfusion h
  · have hq : (314159 / 100000 : ℚ) ≠ 0 := by norm_num
    have hnt : numTruthy (some (314159 / 100000 : ℚ)) = true := by
      simp [numTruthy, hq]
    have hfl : (⌊(314159 / 100000 : ℚ) * 10 + 1 / 2⌋ : ℤ) = 31 := by
      rw [Int.floor_eq_iff]
      constructor <;> norm_num
    have hround : roundTo1 (314159 / 100000 : ℚ) = 31 / 10 := by
      unfold roundTo1
      rw [hfl]
      norm_num
    have hpatch : propertiesToUpdate toISO2 (some (314159 / 100000 : ℚ))
        none
        { hoursCurrentNumber := some (31 / 10 : ℚ),
          lastUpdateDateStart := none } = [] := by
      unfold propertiesToUpdate
      rw [if_pos hnt]
      have hst : strTruthy (none : Option String) = false := rfl
      simp [hround, hst]
    unfold syncGoogleSheetToNotionRow
    rw [if_neg (by simp [hnt])]
    have hid : extractNotionPageId
        "https://www.notion.so/grey-box/People-da052a0ffb3a428d8e7013c540c42665"
        = some "da052a0ffb3a428d8e7013c540c42665" := by decide
    rw [hid]
    simp [hpatch]

/-- Witness for C8 (end-to-end scenario 3): hours `3.14159` against remote
`3.1` with an empty date cell produces an empty patch and no write. -/
theorem syncGoogleSheetToNotion_change_gated_witness :
    syncGoogleSheetToNotionRow (fun s => s)
      "https://www.notion.so/grey-box/People-da052a0ffb3a428d8e7013c540c42665"
      (some (314159 / 100000 : ℚ)) none
      { hoursCurrentNumber := some (31 / 10 : ℚ),
        lastUpdateDateStart := none } = RowOutcome.skippedNoChanges :=
  (syncGoogleSheetToNotion_change_gated (fun s => s)
    "https://www.notion.so/grey-box/People-da052a0ffb3a428d8e7013c540c42665"
    (some (314159 / 100000 : ℚ)) none
    { hoursCurrentNumber := some (31 / 10 : ℚ),
      lastUpdateDateStart := none }).2.2 (fun s => s)

lemma head_dropWhile_false (p : Char → Bool) (l : List Char) :
    ∀ c, (l.dropWhile p).head? = some c → p c = false := by
  induction l with
  | nil => intro c h; simp at h
  | cons a as ih =>
    intro c h
    by_cases hp : p a
    · rw [List.dropWhile_cons_of_pos hp] at h
      exact ih c h
    · rw [List.dropWhile_cons_of_neg hp] at h
      simp only [List.head?_cons, Option.some.injEq] at h
      rw [← h]
      exact Bool.eq_false_iff.mpr hp

/-- `trimSeparators l` is the list `dropWhile slackSeparator l` with a
(separator-only) suffix removed. -/
lemma trimSeparators_append (l : List Char) :
    l.dropWhile slackSeparator =
      trimSeparators l ++
        ((l.dropWhile slackSeparator).reverse.takeWhile
          slackSeparator).reverse := by
  unfold trimSeparators
  rw [← List.reverse_append, List.takeWhile_append_dropWhile,
    List.reverse_reverse]

lemma head_trimSeparators (l : List Char) (c : Char)
    (h : (trimSeparators l).head? = some c) : slackSeparator c = false := by
  have hsplit := trimSeparators_append l
  cases ht : trimSeparators l with
  | nil => rw [ht] at h; simp at h
  | cons x xs =>
    rw [ht] at h hsplit
    simp only [List.head?_cons, Option.some.injEq] at h
    subst h
    rw [List.cons_append] at hsplit
    have hx : (l.dropWhile slackSeparator).head? = some x := by
      rw [hsplit]
      rfl
    exact head_dropWhile_false slackSeparator l x hx

lemma getLast_trimSeparators (l : List Char) (c : Char)
    (h : (trimSeparators l).getLast? = some c) :
    slackSeparator c = false := by
  unfold trimSeparators at h
  rw [List.getLast?_reverse] at h
  exact head_dropWhile_false slackSeparator
    (l.dropWhile slackSeparator).reverse c h

lemma mem_squashSeparatorRuns :
    ∀ (fuel : Nat) (l : List Char) (c : Char),
      c ∈ squashSeparatorRuns fuel l → c ∈ l ∨ c = '-' := by
  intro fuel
  induction fuel with
  | zero => intro l c h; simp [squashSeparatorRuns] at h
  | succ f ih =>
    intro l c h
    cases l with
    | nil => simp [squashSeparatorRuns] at h
    | cons a as =>
      by_cases hsep : slackSeparator a
      · cases as with
        | nil =>
          simp only [squashSeparatorRuns, hsep, if_true] at h
          left
          simpa using h
        | cons d ds =>
          by_cases hd : slackSeparator d
          · simp only [squashSeparatorRuns, hsep, hd, if_true] at h
            rcases List.mem_cons.mp h with hc | hc
            · right; exact hc
            · rcases ih (ds.dropWhile slackSeparator) c hc with hm | hm
              · left
                have := (List.dropWhile_sublist
                  (l := ds) (p := slackSeparator)).subset hm
                exact List.mem_cons_of_mem a
                  (List.mem_cons_of_mem d this)
              · right; exact hm
          · simp only [squashSeparatorRuns, hsep, hd, if_true, if_false] at h
            rcases List.mem_cons.mp h with hc | hc
            · left; rw [hc]; exact List.mem_cons_self a _
            · rcases ih (d :: ds) c hc with hm | hm
              · left; exact List.mem_cons_of_mem a hm
              · right; exact hm
      · simp only [squashSeparatorRuns, hsep, if_false] at h
        rcases List.mem_cons.mp h with hc | hc
        · left; rw [hc]; exact List.mem_cons_self a _
        · rcases ih as c hc with hm | hm
          · left; exact List.mem_cons_of_mem a hm
          · right; exact hm

lemma mem_trimSeparators (l : List Char) (c : Char)
    (h : c ∈ trimSeparators l) : c ∈ l := by
  unfold trimSeparators at h
  rw [List.mem_reverse] at h
  have h2 := (List.dropWhile_sublist
    (l := (l.dropWhile slackSeparator).reverse)
    (p := slackSeparator)).subset h
  rw [List.mem_reverse] at h2
  exact (List.dropWhile_sublist (l := l) (p := slackSeparator)).subset h2

/-- Every character of the cleaned handle is legal. -/
lemma cleanedHandle_allowed (s : String) (c : Char)
    (h : c ∈ (cleanedHandle s).data) : slackAllowed c = true := by
  unfold cleanedHandle at h
  simp only at h
  have h1 := mem_trimSeparators _ c h
  rcases mem_squashSeparatorRuns _ _ c h1 with hm | hm
  · exact (List.mem_filter.mp hm).2
  · rw [hm]
    rfl

lemma default_handle_ne_empty (now : Nat) :
    "default-user-" ++ toString now ≠ "" := by
  intro h
  have h2 := congrArg String.data h
  rw [String.data_append] at h2
  exact absurd h2 (by simp)

/-- C9 (amended): for every input the result is non-empty (the default
handle covers non-string, falsy, and cleaned-to-empty names); for a string
whose cleaned form is non-empty, the result is the cleaned handle
truncated to at most 21 characters, consisting only of lower-case
letters, digits, `.`, `_` and `-`, with no leading separator — and while
the cleaned form has neither a leading nor a trailing separator, the final
truncation can cut at a separator, so only the leading side is guaranteed
on the returned handle. -/
theorem generateSlackHandle_shape (name : Option String) (now : Nat) :
    generateSlackHandle name now ≠ "" ∧
    (∀ s, name = some s → cleanedHandle s ≠ "" →
      generateSlackHandle name now = truncatedHandle s ∧
      (truncatedHandle s).data.length ≤ 21 ∧
      truncatedHandle s ≠ "" ∧
      (∀ c ∈ (truncatedHandle s).data, slackAllowed c = true) ∧
      (∀ c, (truncatedHandle s).data.head? = some c →
        slackSeparator c = false) ∧
      (∀ c, (cleanedHandle s).data.head? = some c →
        slackSeparator c = false) ∧
      (∀ c, (cleanedHandle s).data.getLast? = some c →
        slackSeparator c = false)) := by
  have hmain : ∀ s : String, cleanedHandle s ≠ "" →
      (truncatedHandle s ≠ "" ∧
        (truncatedHandle s).data.length ≤ 21 ∧
        (∀ c ∈ (truncatedHandle s).data, slackAllowed c = true) ∧
        (∀ c, (truncatedHandle s).data.head? = some c →
          slackSeparator c = false) ∧
        (∀ c, (cleanedHandle s).data.head? = some c →
          slackSeparator c = false) ∧
        (∀ c, (cleanedHandle s).data.getLast? = some c →
          slackSeparator c = false)) := by
    intro s hcl
    have hdata : (cleanedHandle s).data ≠ [] := by
      intro h
      apply hcl
      have : cleanedHandle s = String.mk (cleanedHandle s).data := rfl
      rw [this, h]
    obtain ⟨l4, hl4⟩ : ∃ l4, (cleanedHandle s).data = trimSeparators l4 :=
      ⟨_, rfl⟩
    have htr : (truncatedHandle s).data = (cleanedHandle s).data.take 21 :=
      rfl
    refine ⟨?_, ?_, ?_, ?_, ?_, ?_⟩
    · intro h
      have h2 := congrArg String.data h
      rw [htr] at h2
      rcases List.take_eq_nil_iff.mp h2 with h3 | h3 <;>
        first
          | exact hdata h3
          | exact absurd h3 (by norm_num)
    · rw [htr, List.length_take]
      omega
    · intro c hc
      rw [htr] at hc
      exact cleanedHandle_allowed s c (List.take_subset 21 _ hc)
    · intro c hc
      rw [htr] at hc
      have hh : (cleanedHandle s).data.head? = some c := by
        cases hd : (cleanedHandle s).data with
        | nil => rw [hd] at hc; simp at hc
        | cons x xs =>
          rw [hd] at hc
          rw [List.take_succ_cons, List.head?_cons] at hc
          rw [List.head?_cons]
          exact hc
      rw [hl4] at hh
      exact head_trimSeparators l4 c hh
    · intro c hc
      rw [hl4] at hc
      exact head_trimSeparators l4 c hc
    · intro c hc
      rw [hl4] at hc
      exact getLast_trimSeparators l4 c hc
  constructor
  · cases name with
    | none => exact default_handle_ne_empty now
    | some s =>
      show (if s = "" then "default-user-" ++ toString now
        else if truncatedHandle s = "" then "default-user-" ++ toString now
        else truncatedHandle s) ≠ ""
      by_cases hs : s = ""
      · rw [if_pos hs]
        exact default_handle_ne_empty now
      · rw [if_neg hs]
        by_cases hh : truncatedHandle s = ""
        · rw [if_pos hh]
          exact default_handle_ne_empty now
        · rw [if_neg hh]
          exact hh
  · intro s hname hcl
    subst hname
    have h := hmain s hcl
    have hs : s ≠ "" := by
      intro h0
      apply hcl
      rw [h0]
      rfl
    have hgen : generateSlackHandle (some s) now = truncatedHandle s := by
      show (if s = "" then "default-user-" ++ toString now
        else if truncatedHandle s = "" then "default-user-" ++ toString now
        else truncatedHandle s) = truncatedHandle s
      rw [if_neg hs, if_neg h.1]
    exact ⟨hgen, h.2.1, h.1, h.2.2.1, h.2.2.2.1, h.2.2.2.2.1, h.2.2.2.2.2⟩

/-- Counterexample for C9 as stated: the 22-character name
`"aaaaaaaaaaaaaaaaaaaa b"` cleans to `"aaaaaaaaaaaaaaaaaaaa-b"` (itself
separator-free at both ends), but the final `substring(0, 21)` cuts right
after the dash, so the returned handle ends in the separator `-`. -/
theorem generateSlackHandle_trailing_separator :
    generateSlackHandle (some "aaaaaaaaaaaaaaaaaaaa b") 0 =
      "aaaaaaaaaaaaaaaaaaaa-" ∧
    cleanedHandle "aaaaaaaaaaaaaaaaaaaa b" = "aaaaaaaaaaaaaaaaaaaa-b" ∧
    "aaaaaaaaaaaaaaaaaaaa-".data.getLast? = some '-' ∧
    slackSeparator '-' = true := by
  exact ⟨by decide, by decide, by decide, rfl⟩

/-- Witness for C9 (amended): the documentation example
`"Grey Box Team" ↦ "grey-box-team"`, and a non-string input still yields
a non-empty handle. -/
theorem generateSlackHandle_shape_witness :
    generateSlackHandle (some "Grey Box Team") 0 = "grey-box-team" ∧
    generateSlackHandle (none : Option String) 7 ≠ "" := by
  have h := generateSlackHandle_shape (some "Grey Box Team") 0
  have h2 := generateSlackHandle_shape (none : Option String) 7
  refine ⟨?_, h2.1⟩
  have h3 := (h.2 "Grey Box Team" rfl (by decide)).1
  rw [h3]
  decide

/-- C10: `addUsersToUsergroup` never removes an existing member — any
submitted membership list is exactly the current member list concatenated
with the requested ids not already present (so every current member is
kept and every requested id included) — and when every requested id is
already a member it returns `true` without issuing an update call. -/
theorem addUsersToUsergroup_additive_and_gated
    (existingUserIds userIds : List String) :
    (∀ submitted,
      addUsersToUsergroupAction existingUserIds userIds =
        .update submitted →
      submitted = existingUserIds ++
        userIds.filter (fun id => !existingUserIds.contains id) ∧
      (∀ u ∈ existingUserIds, u ∈ submitted) ∧
      (∀ u ∈ userIds, u ∈ submitted)) ∧
    ((∀ u ∈ userIds, u ∈ existingUserIds) →
      addUsersToUsergroupAction existingUserIds userIds = .noUpdate ∧
      ∀ remoteOk, addUsersToUsergroup existingUserIds userIds remoteOk
        = true) := by
  constructor
  · intro submitted hsub
    unfold addUsersToUsergroupAction at hsub
    by_cases hne :
        (userIds.filter (fun id => !existingUserIds.contains id)).isEmpty
    · rw [if_pos hne] at hsub
      exact absurd hsub (by simp)
    · rw [if_neg hne] at hsub
      obtain rfl := (UsergroupAction.update.inj hsub).symm
      refine ⟨rfl, ?_, ?_⟩
      · intro u hu
        exact List.mem_append_left _ hu
      · intro u hu
        by_cases hmem : u ∈ existingUserIds
        · exact List.mem_append_left _ hmem
        · refine List.mem_append_right _ ?_
          rw [List.mem_filter]
          refine ⟨hu, ?_⟩
          simpa using hmem
  · intro hall
    have hfil : userIds.filter (fun id => !existingUserIds.contains id)
        = [] := by
      rw [List.filter_eq_nil_iff]
      intro a ha
      simpa using hall a ha
    have hact : addUsersToUsergroupAction existingUserIds userIds =
        .noUpdate := by
      unfold addUsersToUsergroupAction
      rw [hfil]
      rfl
    refine ⟨hact, fun remoteOk => ?_⟩
    unfold addUsersToUsergroup
    rw [hact]

/-- Witness for C10: with current members `U1, U2` and request `U2, U3`,
the submitted list is `U1, U2, U3` (both current members kept); with
request `U2, U1` no update call is made and the result is `true` even if
the remote would have failed. -/
theorem addUsersToUsergroup_additive_and_gated_witness :
    ("U1" ∈ ["U1", "U2"] ++
      (["U2", "U3"].filter (fun id => !(["U1", "U2"].contains id)))) ∧
    addUsersToUsergroupAction ["U1", "U2"] ["U2", "U1"] =
      UsergroupAction.noUpdate ∧
    addUsersToUsergroup ["U1", "U2"] ["U2", "U1"] false = true := by
  have h1 := (addUsersToUsergroup_additive_and_gated
    ["U1", "U2"] ["U2", "U3"]).1
    (["U1", "U2"] ++
      (["U2", "U3"].filter (fun id => !(["U1", "U2"].contains id))))
    (by decide)
  have h2 := (addUsersToUsergroup_additive_and_gated
    ["U1", "U2"] ["U2", "U1"]).2 (by decide)
  exact ⟨h1.2.1 "U1" (by decide), h2.1, h2.2 false⟩

/-! ### Totality helpers -/

lemma truthy_notNullish (v : JVal) (h : truthy v = true) :
    notNullish v = true := by
  cases v <;> first | rfl | exact absurd h (by simp [truthy])

lemma getField_ok (v : JVal) (hv : notNullish v = true) (f : String) :
    ∃ w, getField v f = .ok w := by
  cases v <;> first
    | exact ⟨_, rfl⟩
    | exact absurd hv (by simp [notNullish])

lemma lengthPos_ok (v : JVal) (hv : notNullish v = true) :
    ∃ b, lengthPos v = .ok b := by
  cases v <;> first
    | exact ⟨_, rfl⟩
    | exact absurd hv (by simp [notNullish])

lemma jsIndex_ok (v : JVal) (hv : notNullish v = true) (i : Nat) :
    ∃ w, jsIndex v i = .ok w := by
  cases v <;> first
    | exact ⟨_, rfl⟩
    | exact absurd hv (by simp [notNullish])

lemma mapExcept_ok (f : JVal → Except String JVal) (xs : List JVal)
    (h : ∀ x ∈ xs, ∃ y, f x = .ok y) :
    ∃ ys, mapExcept f xs = .ok ys := by
  induction xs with
  | nil => exact ⟨[], rfl⟩
  | cons x rest ih =>
    obtain ⟨y, hy⟩ := h x (List.mem_cons_self x rest)
    obtain ⟨ys, hys⟩ := ih (fun a ha => h a (List.mem_cons_of_mem x ha))
    refine ⟨y :: ys, ?_⟩
    simp only [mapExcept, hy, hys]
    rfl

lemma jsMap_ok (f : JVal → Except String JVal) (items : List JVal)
    (h : ∀ x ∈ items, ∃ y, f x = .ok y) :
    ∃ ys, jsMap f (.arr items) = .ok ys := by
  obtain ⟨ys, hys⟩ := mapExcept_ok f items h
  exact ⟨ys, hys⟩

lemma getField_obj (fs : List (String × JVal)) (f : String) :
    getField (.obj fs) f = .ok ((fs.lookup f).getD .undef) := rfl

lemma ok_bind {α β : Type} (a : α) (f : α → Except String β) :
    (Except.ok a >>= f : Except String β) = f a := rfl

/-- An unrecognized tag takes the logged default branch: `""`. -/
lemma gpdSwitch_default (env : ProjectionEnv) (p : JVal) (tag : String)
    (h : tag ∉ handledTagsNotion) :
    gpdSwitch env p tag = .ok (.str "") := by
  simp only [handledTagsNotion, List.mem_cons, List.not_mem_nil, or_false,
    not_or] at h
  unfold gpdSwitch
  rw [if_neg h.1, if_neg h.2.1, if_neg h.2.2.1, if_neg h.2.2.2.1,
    if_neg h.2.2.2.2.1, if_neg h.2.2.2.2.2.1, if_neg h.2.2.2.2.2.2.1,
    if_neg h.2.2.2.2.2.2.2.1, if_neg h.2.2.2.2.2.2.2.2.1,
    if_neg h.2.2.2.2.2.2.2.2.2]
  rfl

/-- An unrecognized tag takes the logged default branch: `""`. -/
lemma epvSwitch_default (env : ProjectionEnv) (p : JVal) (tag : String)
    (h : tag ∉ handledTagsTeam) :
    epvSwitch env p tag = .ok (.str "") := by
  simp only [handledTagsTeam, handledTagsNotion, List.mem_append,
    List.mem_cons, List.not_mem_nil, or_false, not_or] at h
  unfold epvSwitch
  rw [if_neg h.1.1, if_neg h.1.2.1, if_neg h.1.2.2.1, if_neg h.1.2.2.2.1,
    if_neg h.1.2.2.2.2.1, if_neg h.1.2.2.2.2.2.1, if_neg h.1.2.2.2.2.2.2.1,
    if_neg h.1.2.2.2.2.2.2.2.1, if_neg h.1.2.2.2.2.2.2.2.2.1,
    if_neg h.1.2.2.2.2.2.2.2.2.2, if_neg h.2]
  rfl

lemma wfPayload_array (fs : List (String × JVal)) (tag : String)
    (hty : fs.lookup "type" = some (.str tag))
    (harr : tag = "title" ∨ tag = "rich_text" ∨ tag = "multi_select" ∨
      tag = "relation")
    (hwf : wfPayload fs) : wfArrayPayload fs tag := by
  unfold wfPayload at hwf
  rw [hty] at hwf
  rcases harr with h | h | h | h <;> (subst h; exact hwf)

lemma wfPayload_formula (fs : List (String × JVal))
    (hty : fs.lookup "type" = some (.str "formula"))
    (hwf : wfPayload fs) :
    ∃ f, fs.lookup "formula" = some f ∧ wfFormulaPayload f := by
  unfold wfPayload at hwf
  rw [hty] at hwf
  exact hwf

lemma getField_obj_lookup (fs : List (String × JVal)) (f : String)
    (v : JVal) (h : fs.lookup f = some v) :
    getField (.obj fs) f = .ok v := by
  rw [getField_obj, h]
  rfl

lemma jsIndex_arr_zero (x : JVal) (xs : List JVal) :
    jsIndex (.arr (x :: xs)) 0 = .ok x := by
  simp [jsIndex]

/-- No handler of notion.js `getPropertyData` can throw on a well-formed
property object. -/
lemma gpdSwitch_ok (env : ProjectionEnv) (fs : List (String × JVal))
    (tag : String) (hty : fs.lookup "type" = some (.str tag))
    (hwf : wfPayload fs) :
    ∃ v, gpdSwitch env (.obj fs) tag = .ok v := by
  by_cases h1 : tag = "title"
  · subst h1
    obtain ⟨items, hlook, hitems⟩ :=
      wfPayload_array fs "title" hty (by left; rfl) hwf
    unfold gpdSwitch
    rw [if_pos rfl, getField_obj_lookup fs "title" _ hlook, ok_bind,
      show lengthPos (.arr items) = .ok !items.isEmpty from rfl, ok_bind]
    cases items with
    | nil => exact ⟨_, rfl⟩
    | cons x xsr =>
      obtain ⟨pt, hpt⟩ :=
        getField_ok x (hitems x (List.mem_cons_self x xsr)) "plain_text"
      refine ⟨pt, ?_⟩
      simp only [List.isEmpty_cons, Bool.not_false, if_true]
      rw [jsIndex_arr_zero, ok_bind, hpt, ok_bind]
      rfl
  · by_cases h2 : tag = "number"
    · subst h2
      unfold gpdSwitch
      rw [if_neg (by decide), if_pos rfl, getField_obj, ok_bind]
      by_cases hn :
          strictNeqNull ((fs.lookup "number").getD .undef) = true
      · exact ⟨_, by rw [if_pos hn]; rfl⟩
      · exact ⟨_, by rw [if_neg hn]; rfl⟩
    · by_cases h3 : tag = "select"
      · subst h3
        unfold gpdSwitch
        rw [if_neg (by decide), if_neg (by decide), if_pos rfl,
          getField_obj, ok_bind]
        by_cases hs : truthy ((fs.lookup "select").getD .undef) = true
        · obtain ⟨w, hw⟩ := getField_ok _ (truthy_notNullish _ hs) "name"
          exact ⟨w, by rw [if_pos hs, hw, ok_bind]; rfl⟩
        · exact ⟨_, by rw [if_neg hs]; rfl⟩
      · by_cases h4 : tag = "multi_select"
        · subst h4
          obtain ⟨items, hlook, hitems⟩ :=
            wfPayload_array fs "multi_select" hty
              (by right; right; left; rfl) hwf
          unfold gpdSwitch
          rw [if_neg (by decide), if_neg (by decide), if_neg (by decide),
            if_pos rfl, getField_obj_lookup fs "multi_select" _ hlook,
            ok_bind,
            show lengthPos (.arr items) = .ok !items.isEmpty from rfl,
            ok_bind]
          by_cases he : (!items.isEmpty) = true
          · obtain ⟨ys, hys⟩ := jsMap_ok (fun item => getField item "name")
              items (fun x hx => getField_ok x (hitems x hx) "name")
            exact ⟨_, by rw [if_pos he, hys, ok_bind]; rfl⟩
          · exact ⟨_, by rw [if_neg he]; rfl⟩
        · by_cases h5 : tag = "email"
          · subst h5
            unfold gpdSwitch
            rw [if_neg (by decide), if_neg (by decide), if_neg (by decide),
              if_neg (by decide), if_pos rfl, getField_obj, ok_bind]
            by_cases he : truthy ((fs.lookup "email").getD .undef) = true
            · exact ⟨_, by rw [if_pos he]; rfl⟩
            · exact ⟨_, by rw [if_neg he]; rfl⟩
          · by_cases h6 : tag = "date"
            · subst h6
              unfold gpdSwitch
              rw [if_neg (by decide), if_neg (by decide), if_neg (by decide),
                if_neg (by decide), if_neg (by decide), if_pos rfl,
                getField_obj, ok_bind]
              by_cases hd : truthy ((fs.lookup "date").getD .undef) = true
              · obtain ⟨sv, hsv⟩ :=
                  getField_ok _ (truthy_notNullish _ hd) "start"
                rw [if_pos hd, hsv, ok_bind]
                by_cases hs : truthy sv = true
                · obtain ⟨ev, hev⟩ :=
                    getField_ok _ (truthy_notNullish _ hd) "end"
                  rw [if_pos hs, hev, ok_bind]
                  by_cases hevt : truthy ev = true
                  · exact ⟨_, by rw [if_pos hevt]; rfl⟩
                  · exact ⟨_, by rw [if_neg hevt]; rfl⟩
                · exact ⟨_, by rw [if_neg hs]; rfl⟩
              · exact ⟨_, by rw [if_neg hd]; rfl⟩
            · by_cases h7 : tag = "created_time"
              · subst h7
                unfold gpdSwitch
                rw [if_neg (by decide), if_neg (by decide),
                  if_neg (by decide), if_neg (by decide), if_neg (by decide),
                  if_neg (by decide), if_pos rfl, getField_obj, ok_bind]
                by_cases hc :
                    truthy ((fs.lookup "created_time").getD .undef) = true
                · exact ⟨_, by rw [if_pos hc]; rfl⟩
                · exact ⟨_, by rw [if_neg hc]; rfl⟩
              · by_cases h8 : tag = "rich_text"
                · subst h8
                  obtain ⟨items, hlook, hitems⟩ :=
                    wfPayload_array fs "rich_text" hty
                      (by right; left; rfl) hwf
                  unfold gpdSwitch
                  rw [if_neg (by decide), if_neg (by decide),
                    if_neg (by decide), if_neg (by decide),
                    if_neg (by decide), if_neg (by decide),
                    if_neg (by decide), if_pos rfl,
                    getField_obj_lookup fs "rich_text" _ hlook, ok_bind,
                    show lengthPos (.arr items) = .ok !items.isEmpty
                      from rfl,
                    ok_bind]
                  by_cases he : (!items.isEmpty) = true
                  · obtain ⟨ys, hys⟩ := jsMap_ok
                      (fun item => getField item "plain_text") items
                      (fun x hx => getField_ok x (hitems x hx) "plain_text")
                    exact ⟨_, by rw [if_pos he, hys, ok_bind]; rfl⟩
                  · exact ⟨_, by rw [if_neg he]; rfl⟩
                · by_cases h9 : tag = "status"
                  · subst h9
                    unfold gpdSwitch
                    rw [if_neg (by decide), if_neg (by decide),
                      if_neg (by decide), if_neg (by decide),
                      if_neg (by decide), if_neg (by decide),
                      if_neg (by decide), if_neg (by decide), if_pos rfl,
                      getField_obj, ok_bind]
                    by_cases hs :
                        truthy ((fs.lookup "status").getD .undef) = true
                    · obtain ⟨w, hw⟩ :=
                        getField_ok _ (truthy_notNullish _ hs) "name"
                      exact ⟨w, by rw [if_pos hs, hw, ok_bind]; rfl⟩
                    · exact ⟨_, by rw [if_neg hs]; rfl⟩
                  · by_cases h10 : tag = "relation"
                    · subst h10
                      obtain ⟨items, hlook, hitems⟩ :=
                        wfPayload_array fs "relation" hty
                          (by right; right; right; rfl) hwf
                      unfold gpdSwitch
                      rw [if_neg (by decide), if_neg (by decide),
                        if_neg (by decide), if_neg (by decide),
                        if_neg (by decide), if_neg (by decide),
                        if_neg (by decide), if_neg (by decide),
                        if_neg (by decide), if_pos rfl,
                        getField_obj_lookup fs "relation" _ hlook, ok_bind,
                        show lengthPos (.arr items) = .ok !items.isEmpty
                          from rfl,
                        ok_bind]
                      by_cases he : (!items.isEmpty) = true
                      · obtain ⟨ys, hys⟩ := jsMap_ok
                          (fun rel => do
                            let i ← getField rel "id"
                            pure (.str (env.fetchPageTitle i)))
                          items
                          (fun x hx => by
                            obtain ⟨w, hw⟩ :=
                              getField_ok x (hitems x hx) "id"
                            refine ⟨JVal.str (env.fetchPageTitle w), ?_⟩
                            show (getField x "id" >>= fun i =>
                              pure (JVal.str (env.fetchPageTitle i))) =
                              Except.ok (JVal.str (env.fetchPageTitle w))
                            rw [hw, ok_bind]
                            rfl)
                        exact ⟨_, by rw [if_pos he, hys, ok_bind]; rfl⟩
                      · exact ⟨_, by rw [if_neg he]; rfl⟩
                    · refine ⟨.str "", ?_⟩
                      exact gpdSwitch_default env (.obj fs) tag (by
                        simp [handledTagsNotion, h1, h2, h3, h4, h5, h6,
                          h7, h8, h9, h10])

/-- No handler of team.js `extractPropertyValue` can throw on a
well-formed property object. -/
lemma epvSwitch_ok (env : ProjectionEnv) (fs : List (String × JVal))
    (tag : String) (hty : fs.lookup "type" = some (.str tag))
    (hwf : wfPayload fs) :
    ∃ v, epvSwitch env (.obj fs) tag = .ok v := by
  by_cases h1 : tag = "title"
  · subst h1
    obtain ⟨items, hlook, hitems⟩ :=
      wfPayload_array fs "title" hty (by left; rfl) hwf
    unfold epvSwitch
    rw [if_pos rfl, getField_obj_lookup fs "title" _ hlook, ok_bind,
      show lengthPos (.arr items) = .ok !items.isEmpty from rfl, ok_bind]
    cases items with
    | nil => exact ⟨_, rfl⟩
    | cons x xsr =>
      obtain ⟨pt, hpt⟩ :=
        getField_ok x (hitems x (List.mem_cons_self x xsr)) "plain_text"
      refine ⟨pt, ?_⟩
      simp only [List.isEmpty_cons, Bool.not_false, if_true]
      rw [jsIndex_arr_zero, ok_bind, hpt, ok_bind]
      rfl
  · by_cases h2 : tag = "number"
    · subst h2
      unfold epvSwitch
      rw [if_neg (by decide), if_pos rfl, getField_obj, ok_bind]
      by_cases hn :
          strictNeqNull ((fs.lookup "number").getD .undef) = true
      · exact ⟨_, by rw [if_pos hn]; rfl⟩
      · exact ⟨_, by rw [if_neg hn]; rfl⟩
    · by_cases h3 : tag = "select"
      · subst h3
        unfold epvSwitch
        rw [if_neg (by decide), if_neg (by decide), if_pos rfl,
          getField_obj, ok_bind]
        by_cases hs : truthy ((fs.lookup "select").getD .undef) = true
        · obtain ⟨w, hw⟩ := getField_ok _ (truthy_notNullish _ hs) "name"
          exact ⟨w, by rw [if_pos hs, hw, ok_bind]; rfl⟩
        · exact ⟨_, by rw [if_neg hs]; rfl⟩
      · by_cases h4 : tag = "multi_select"
        · subst h4
          obtain ⟨items, hlook, hitems⟩ :=
            wfPayload_array fs "multi_select" hty
              (by right; right; left; rfl) hwf
          unfold epvSwitch
          rw [if_neg (by decide), if_neg (by decide), if_neg (by decide),
            if_pos rfl, getField_obj_lookup fs "multi_select" _ hlook,
            ok_bind,
            show lengthPos (.arr items) = .ok !items.isEmpty from rfl,
            ok_bind]
          by_cases he : (!items.isEmpty) = true
          · obtain ⟨ys, hys⟩ := jsMap_ok (fun item => getField item "name")
              items (fun x hx => getField_ok x (hitems x hx) "name")
            exact ⟨_, by rw [if_pos he, hys, ok_bind]; rfl⟩
          · exact ⟨_, by rw [if_neg he]; rfl⟩
        · by_cases h5 : tag = "email"
          · subst h5
            unfold epvSwitch
            rw [if_neg (by decide), if_neg (by decide), if_neg (by decide),
              if_neg (by decide), if_pos rfl, getField_obj, ok_bind]
            by_cases he : truthy ((fs.lookup "email").getD .undef) = true
            · exact ⟨_, by rw [if_pos he]; rfl⟩
            · exact ⟨_, by rw [if_neg he]; rfl⟩
          · by_cases h6 : tag = "date"
            · subst h6
              unfold epvSwitch
              rw [if_neg (by decide), if_neg (by decide), if_neg (by decide),
                if_neg (by decide), if_neg (by decide), if_pos rfl,
                getField_obj, ok_bind]
              by_cases hd : truthy ((fs.lookup "date").getD .undef) = true
              · obtain ⟨sv, hsv⟩ :=
                  getField_ok _ (truthy_notNullish _ hd) "start"
                rw [if_pos hd, hsv, ok_bind]
                by_cases hs : truthy sv = true
                · exact ⟨_, by rw [if_pos hs]; rfl⟩
                · exact ⟨_, by rw [if_neg hs]; rfl⟩
              · exact ⟨_, by rw [if_neg hd]; rfl⟩
            · by_cases h7 : tag = "created_time"
              · subst h7
                unfold epvSwitch
                rw [if_neg (by decide), if_neg (by decide),
                  if_neg (by decide), if_neg (by decide), if_neg (by decide),
                  if_neg (by decide), if_pos rfl, getField_obj, ok_bind]
                by_cases hc :
                    truthy ((fs.lookup "created_time").getD .undef) = true
                · exact ⟨_, by rw [if_pos hc]; rfl⟩
                · exact ⟨_, by rw [if_neg hc]; rfl⟩
              · by_cases h8 : tag = "rich_text"
                · subst h8
                  obtain ⟨items, hlook, hitems⟩ :=
                    wfPayload_array fs "rich_text" hty
                      (by right; left; rfl) hwf
                  unfold epvSwitch
                  rw [if_neg (by decide), if_neg (by decide),
                    if_neg (by decide), if_neg (by decide),
                    if_neg (by decide), if_neg (by decide),
                    if_neg (by decide), if_pos rfl,
                    getField_obj_lookup fs "rich_text" _ hlook, ok_bind,
                    show lengthPos (.arr items) = .ok !items.isEmpty
                      from rfl,
                    ok_bind]
                  by_cases he : (!items.isEmpty) = true
                  · obtain ⟨ys, hys⟩ := jsMap_ok
                      (fun item => getField item "plain_text") items
                      (fun x hx => getField_ok x (hitems x hx) "plain_text")
                    exact ⟨_, by rw [if_pos he, hys, ok_bind]; rfl⟩
                  · exact ⟨_, by rw [if_neg he]; rfl⟩
                · by_cases h9 : tag = "status"
                  · subst h9
                    unfold epvSwitch
                    rw [if_neg (by decide), if_neg (by decide),
                      if_neg (by decide), if_neg (by decide),
                      if_neg (by decide), if_neg (by decide),
                      if_neg (by decide), if_neg (by decide), if_pos rfl,
                      getField_obj, ok_bind]
                    by_cases hs :
                        truthy ((fs.lookup "status").getD .undef) = true
                    · obtain ⟨w, hw⟩ :=
                        getField_ok _ (truthy_notNullish _ hs) "name"
                      exact ⟨w, by rw [if_pos hs, hw, ok_bind]; rfl⟩
                    · exact ⟨_, by rw [if_neg hs]; rfl⟩
                  · by_cases h10 : tag = "relation"
                    · subst h10
                      obtain ⟨items, hlook, hitems⟩ :=
                        wfPayload_array fs "relation" hty
                          (by right; right; right; rfl) hwf
                      unfold epvSwitch
                      rw [if_neg (by decide), if_neg (by decide),
                        if_neg (by decide), if_neg (by decide),
                        if_neg (by decide), if_neg (by decide),
                        if_neg (by decide), if_neg (by decide),
                        if_neg (by decide), if_pos rfl,
                        getField_obj_lookup fs "relation" _ hlook, ok_bind,
                        show lengthPos (.arr items) = .ok !items.isEmpty
                          from rfl,
                        ok_bind]
                      by_cases he : (!items.isEmpty) = true
                      · obtain ⟨ys, hys⟩ := jsMap_ok
                          (fun item => do
                            let n ← getField item "name"
                            if truthy n then pure n
                            else getField item "plain_text")
                          items
                          (fun x hx => by
                            obtain ⟨w, hw⟩ :=
                              getField_ok x (hitems x hx) "name"
                            show ∃ y, (getField x "name" >>= fun n =>
                              if truthy n = true then pure n
                              else getField x "plain_text") = .ok y
                            rw [hw, ok_bind]
                            by_cases ht : truthy w = true
                            · exact ⟨w, by rw [if_pos ht]; rfl⟩
                            · obtain ⟨w2, hw2⟩ :=
                                getField_ok x (hitems x hx) "plain_text"
                              exact ⟨w2, by rw [if_neg ht, hw2]⟩)
                        exact ⟨_, by rw [if_pos he, hys, ok_bind]; rfl⟩
                      · exact ⟨_, by rw [if_neg he]; rfl⟩
                    · by_cases h11 : tag = "formula"
                      · subst h11
                        obtain ⟨f, hlookf, gs, hgs, hcases⟩ :=
                          wfPayload_formula fs hty hwf
                        subst hgs
                        unfold epvSwitch
                        rw [if_neg (by decide), if_neg (by decide),
                          if_neg (by decide), if_neg (by decide),
                          if_neg (by decide), if_neg (by decide),
                          if_neg (by decide), if_neg (by decide),
                          if_neg (by decide), if_neg (by decide),
                          if_pos rfl,
                          getField_obj_lookup fs "formula" _ hlookf,
                          ok_bind, getField_obj, ok_bind]
                        rcases hcases with ⟨⟨s0, hstr⟩, hnum, hbool⟩ |
                            ⟨⟨q0, hnum⟩, hstr, hbool⟩ |
                            ⟨⟨b0, hbool⟩, hstr, hnum⟩
                        · rw [hstr]
                          by_cases hts :
                              truthy (JVal.str s0) = true
                          · exact ⟨_, by
                              rw [show ((some (JVal.str s0)).getD JVal.undef)
                                = JVal.str s0 from rfl, if_pos hts]; rfl⟩
                          · refine ⟨JVal.undef, ?_⟩
                            rw [show ((some (JVal.str s0)).getD JVal.undef)
                              = JVal.str s0 from rfl, if_neg hts,
                              getField_obj, ok_bind, hnum]
                            rw [show ((none : Option JVal).getD JVal.undef)
                              = JVal.undef from rfl]
                            rw [if_pos (show strictNeqNull JVal.undef = true
                              from rfl)]
                            rfl
                        · rw [hstr]
                          refine ⟨JVal.num q0, ?_⟩
                          rw [show ((none : Option JVal).getD JVal.undef)
                            = JVal.undef from rfl]
                          rw [if_neg (show ¬truthy JVal.undef = true by
                            simp [truthy])]
                          rw [getField_obj, ok_bind, hnum]
                          rw [show ((some (JVal.num q0)).getD JVal.undef)
                            = JVal.num q0 from rfl]
                          rw [if_pos (show strictNeqNull (JVal.num q0) = true
                            from rfl)]
                          rfl
                        · rw [hstr]
                          refine ⟨JVal.undef, ?_⟩
                          rw [show ((none : Option JVal).getD JVal.undef)
                            = JVal.undef from rfl]
                          rw [if_neg (show ¬truthy JVal.undef = true by
                            simp [truthy])]
                          rw [getField_obj, ok_bind, hnum]
                          rw [show ((none : Option JVal).getD JVal.undef)
                            = JVal.undef from rfl]
                          rw [if_pos (show strictNeqNull JVal.undef = true
                            from rfl)]
                          rfl
                      · refine ⟨.str "", ?_⟩
                        exact epvSwitch_default env (.obj fs) tag (by
                          simp [handledTagsTeam, handledTagsNotion, h1, h2,
                            h3, h4, h5, h6, h7, h8, h9, h10, h11])

/-- C7: on every TypedValue input — absent (`undefined`), `null`, or a
property object with any type tag and well-formed payload — both
projection functions evaluate without throwing; absent and null inputs
project to `""`; an unrecognized type tag projects to `""` in both
functions; and a `formula` property (unsupported in notion.js) projects
to `""` under `getPropertyData`. -/
theorem displayValue_never_throws (env : ProjectionEnv) (p : JVal)
    (hwf : WFProperty p) :
    (∃ v, getPropertyData env p = Except.ok v) ∧
    (∃ v, extractPropertyValue env p = Except.ok v) ∧
    ((p = .undef ∨ p = .null) →
      getPropertyData env p = .ok (.str "") ∧
      extractPropertyValue env p = .ok (.str "")) ∧
    (∀ fs tag, p = .obj fs →
      fs.lookup "type" = some (.str tag) → tag ∉ handledTagsTeam →
      getPropertyData env p = .ok (.str "") ∧
      extractPropertyValue env p = .ok (.str "")) ∧
    (∀ fs, p = .obj fs →
      fs.lookup "type" = some (.str "formula") →
      getPropertyData env p = .ok (.str "")) := by
  rcases hwf with h | h | ⟨fs, hfs, hwfp⟩
  · subst h
    exact ⟨⟨_, rfl⟩, ⟨_, rfl⟩, fun _ => ⟨rfl, rfl⟩,
      fun fs tag hfs => JVal.noConfusion hfs,
      fun fs hfs => JVal.noConfusion hfs⟩
  · subst h
    exact ⟨⟨_, rfl⟩, ⟨_, rfl⟩, fun _ => ⟨rfl, rfl⟩,
      fun fs tag hfs => JVal.noConfusion hfs,
      fun fs hfs => JVal.noConfusion hfs⟩
  · subst hfs
    have hredg : getPropertyData env (.obj fs) =
        (match (fs.lookup "type").getD .undef with
          | .str tag => gpdSwitch env (.obj fs) tag
          | _ => pure (.str "")) := rfl
    have hrede : extractPropertyValue env (.obj fs) =
        (match (fs.lookup "type").getD .undef with
          | .str tag => epvSwitch env (.obj fs) tag
          | _ => pure (.str "")) := rfl
    refine ⟨?_, ?_, ?_, ?_, ?_⟩
    · cases hty : fs.lookup "type" with
      | none =>
        rw [hty] at hredg
        exact ⟨_, hredg.trans rfl⟩
      | some t =>
        rw [hty] at hredg
        cases t with
        | str tag =>
          obtain ⟨v, hv⟩ := gpdSwitch_ok env fs tag hty hwfp
          exact ⟨v, hredg.trans hv⟩
        | undef => exact ⟨_, hredg.trans rfl⟩
        | null => exact ⟨_, hredg.trans rfl⟩
        | bool b => exact ⟨_, hredg.trans rfl⟩
        | num q => exact ⟨_, hredg.trans rfl⟩
        | arr xs => exact ⟨_, hredg.trans rfl⟩
        | obj gs => exact ⟨_, hredg.trans rfl⟩
    · cases hty : fs.lookup "type" with
      | none =>
        rw [hty] at hrede
        exact ⟨_, hrede.trans rfl⟩
      | some t =>
        rw [hty] at hrede
        cases t with
        | str tag =>
          obtain ⟨v, hv⟩ := epvSwitch_ok env fs tag hty hwfp
          exact ⟨v, hrede.trans hv⟩
        | undef => exact ⟨_, hrede.trans rfl⟩
        | null => exact ⟨_, hrede.trans rfl⟩
        | bool b => exact ⟨_, hrede.trans rfl⟩
        | num q => exact ⟨_, hrede.trans rfl⟩
        | arr xs => exact ⟨_, hrede.trans rfl⟩
        | obj gs => exact ⟨_, hrede.trans rfl⟩
    · intro hcon
      rcases hcon with h | h <;> exact JVal.noConfusion h
    · intro fs2 tag hfs2 hty hnot
      obtain rfl := JVal.obj.inj hfs2
      have hnotN : tag ∉ handledTagsNotion := by
        intro hmem
        apply hnot
        unfold handledTagsTeam
        exact List.mem_append_left _ hmem
      rw [hty] at hredg hrede
      constructor
      · exact hredg.trans (gpdSwitch_default env (.obj fs) tag hnotN)
      · exact hrede.trans (epvSwitch_default env (.obj fs) tag hnot)
    · intro fs2 hfs2 hty
      obtain rfl := JVal.obj.inj hfs2
      rw [hty] at hredg
      exact hredg.trans
        (gpdSwitch_default env (.obj fs) "formula" (by decide))

/-- Witness for C7: an absent property and a null property project to
`""`, an unrecognized `"rollup"` tag projects to `""`, and a well-formed
title property projects without throwing to its first item's
`plain_text`. -/
theorem displayValue_never_throws_witness :
    getPropertyData trivialEnv JVal.undef = .ok (.str "") ∧
    extractPropertyValue trivialEnv JVal.null = .ok (.str "") ∧
    getPropertyData trivialEnv
      (.obj [("type", .str "rollup")]) = .ok (.str "") ∧
    getPropertyData trivialEnv
      (.obj [("type", .str "title"),
             ("title", .arr [.obj [("plain_text", .str "Jane Doe")]])]) =
      .ok (.str "Jane Doe") := by
  have h1 := displayValue_never_throws trivialEnv (JVal.undef)
    (Or.inl rfl)
  have h2 := displayValue_never_throws trivialEnv JVal.null
    (Or.inr (Or.inl rfl))
  have h3 := displayValue_never_throws trivialEnv
    (.obj [("type", .str "rollup")])
    (Or.inr (Or.inr ⟨_, rfl, trivial⟩))
  exact ⟨(h1.2.2.1 (Or.inl rfl)).1, (h2.2.2.1 (Or.inr rfl)).2,
    (h3.2.2.2.1 _ "rollup" rfl rfl (by decide)).1, rfl⟩

end SyncSpec
